import Mathlib

/-!
Verification of the sculpt mesh-editing engine.

Shallow embedding of the core of the repository:
  * src/services/sculpting/sculptingEngine.ts
      (calculateSymmetryPoints, calculateAverageNormal, calculateDirection,
       applyDeformation)
  * src/utils/symmetricSubdivision.ts  (subdivideSymmetrically and helpers)
  * src/utils/ensureGeometrySymmetry.ts  (ensureGeometrySymmetry)

Modelling conventions:
  * THREE.Vector3 is modelled as a record of three real numbers; the
    JavaScript floats are idealised as exact reals, so floating-point
    rounding is outside the model.  All the quantities the claims are about
    (list lengths, indices, exact equalities of untouched data, sign
    cancellations) are exact in both.
  * `distanceTo` and `length` use `Real.sqrt` exactly as the source uses
    `Math.sqrt`.
  * String edge keys of the form "a-b" (with a ≤ b, produced by
    `makeEdgeKey`) are modelled as ordered pairs `(a, b)`; the decimal
    string representation is injective, so the two key spaces are isomorphic.
  * JavaScript `Set` / `Map` objects iterate in insertion order; they are
    modelled as lists with membership-checked insertion, which reproduces
    both the set semantics and the iteration order.
  * A thrown TypeError (reading `.array` of an absent attribute) is
    modelled as `Except.error`.
-/

noncomputable section

namespace Sculpt

open Classical

/-- Model of THREE.Vector3: three real coordinates. -/
structure Vec3 where
  x : ℝ
  y : ℝ
  z : ℝ

/-- Vector addition (THREE.Vector3.add). -/
def Vec3.add (a b : Vec3) : Vec3 := ⟨a.x + b.x, a.y + b.y, a.z + b.z⟩

/-- Vector subtraction (THREE.Vector3.sub). -/
def Vec3.sub (a b : Vec3) : Vec3 := ⟨a.x - b.x, a.y - b.y, a.z - b.z⟩

/-- Scalar multiplication (THREE.Vector3.multiplyScalar). -/
def Vec3.scale (s : ℝ) (a : Vec3) : Vec3 := ⟨s * a.x, s * a.y, s * a.z⟩

instance : Add Vec3 := ⟨Vec3.add⟩

instance : Sub Vec3 := ⟨Vec3.sub⟩

/-- The zero vector (new THREE.Vector3()). -/
def Vec3.zero : Vec3 := ⟨0, 0, 0⟩

instance : Inhabited Vec3 := ⟨Vec3.zero⟩

/-- Squared Euclidean norm of a vector (THREE.Vector3.lengthSq). -/
def Vec3.normSq (a : Vec3) : ℝ := a.x * a.x + a.y * a.y + a.z * a.z

/-- Euclidean norm (THREE.Vector3.length): `Math.sqrt` of the squared norm. -/
def Vec3.len (a : Vec3) : ℝ := Real.sqrt a.normSq

/-- Squared distance between two vectors. -/
def Vec3.dist2 (a b : Vec3) : ℝ := (a - b).normSq

/-- Euclidean distance (THREE.Vector3.distanceTo). -/
def Vec3.distanceTo (a b : Vec3) : ℝ := Real.sqrt (a.dist2 b)

/-- THREE.Vector3.normalize: divide by the length, with THREE's
`length() || 1` guard that leaves the zero vector unchanged. -/
def Vec3.normalize (a : Vec3) : Vec3 :=
  Vec3.scale (1 / (if a.len = 0 then 1 else a.len)) a

/-- THREE.Vector3.divideScalar. -/
def Vec3.divideScalar (a : Vec3) (s : ℝ) : Vec3 := Vec3.scale (1 / s) a

/-- A `{ x, y, z }` record of booleans, used both for the symmetry-axis
configuration and for mirror configurations (which axes to flip). -/
structure Axes where
  x : Bool
  y : Bool
  z : Bool
deriving DecidableEq, Fintype

/-- Model of THREE.BufferGeometry restricted to what the engine touches:
the `position` and `normal` attributes (lists of vectors, absent when the
attribute is missing) and the optional triangle index list. -/
structure BufferGeometry where
  position : Option (List Vec3)
  normal : Option (List Vec3)
  index : Option (List ℕ)

/- ===================================================================
   sculptingEngine.ts : calculateSymmetryPoints
   =================================================================== -/

/-- Negate the coordinates selected by a mirror configuration
(the `if (config.x) mirrorPoint.x = -mirrorPoint.x; ...` body of the
mirror loop in `calculateSymmetryPoints`). -/
def applyMirror (config : Axes) (p : Vec3) : Vec3 :=
  { x := if config.x then -p.x else p.x
    y := if config.y then -p.y else p.y
    z := if config.z then -p.z else p.z }

/-- The `mirrorConfigs` list built by `calculateSymmetryPoints`: singles,
then pairs, then the triple, each guarded by the enabled axes, in source
order. -/
def mirrorConfigs (axes : Axes) : List Axes :=
  (if axes.x then [⟨true, false, false⟩] else []) ++
  (if axes.y then [⟨false, true, false⟩] else []) ++
  (if axes.z then [⟨false, false, true⟩] else []) ++
  (if axes.x && axes.y then [⟨true, true, false⟩] else []) ++
  (if axes.x && axes.z then [⟨true, false, true⟩] else []) ++
  (if axes.y && axes.z then [⟨false, true, true⟩] else []) ++
  (if axes.x && axes.y && axes.z then [⟨true, true, true⟩] else [])

/-- sculptingEngine.ts `calculateSymmetryPoints`: the original point first,
then one mirror image per configuration. -/
def calculateSymmetryPoints (localPoint : Vec3) (symmetryAxes : Axes) :
    List Vec3 :=
  if !symmetryAxes.x && !symmetryAxes.y && !symmetryAxes.z then [localPoint]
  else
    localPoint :: (mirrorConfigs symmetryAxes).map fun c => applyMirror c localPoint

/-- Number of enabled axes in a symmetry configuration. -/
def countEnabled (axes : Axes) : ℕ :=
  (if axes.x then 1 else 0) + (if axes.y then 1 else 0) +
    (if axes.z then 1 else 0)

/-- Subset order on axis configurations: every axis flipped by `c` is
enabled in `axes`. -/
def axesSubset (c axes : Axes) : Prop :=
  (c.x = true → axes.x = true) ∧ (c.y = true → axes.y = true) ∧
    (c.z = true → axes.z = true)

instance (c axes : Axes) : Decidable (axesSubset c axes) := by
  unfold axesSubset; infer_instance

/- ===================================================================
   symmetricSubdivision.ts : subdivideSymmetrically and helpers
   =================================================================== -/

/-- Association-list lookup: first binding wins, mirroring JavaScript
`Map.get` for maps whose keys are inserted at most once. -/
def lookupA {α β : Type} [DecidableEq α] : List (α × β) → α → Option β
  | [], _ => none
  | (k, b) :: rest, a => if k = a then some b else lookupA rest a

/-- List lookup with the default used for an index (an in-range access in
the source; out-of-range inputs are excluded by the well-formedness
hypotheses of the theorems that need them). -/
def getV (vertices : List Vec3) (i : ℕ) : Vec3 := vertices.getD i Vec3.zero

/-- symmetricSubdivision.ts `makeEdgeKey`: canonical unordered edge key,
smaller index first (the string "a-b" modelled as the pair (a, b)). -/
def makeEdgeKey (i1 i2 : ℕ) : ℕ × ℕ := if i1 < i2 then (i1, i2) else (i2, i1)

/-- Chunk a flat index list into triangles (the `i += 3` loops). -/
def toTriples : List ℕ → List (ℕ × ℕ × ℕ)
  | i0 :: i1 :: i2 :: rest => (i0, i1, i2) :: toTriples rest
  | _ => []

/-- Quantization key of the vertex-merging fallback: each coordinate is
divided by the epsilon 0.001 and rounded (JavaScript Math.round is round
half up, as is Mathlib's `round`). -/
def weldKey (v : Vec3) : ℤ × ℤ × ℤ :=
  (round (v.x / 0.001), round (v.y / 0.001), round (v.z / 0.001))

/-- State of the vertex-merging fallback fold. -/
structure WeldSt where
  vertexMap : List ((ℤ × ℤ × ℤ) × ℕ)
  newIndices : List ℕ
  newVertices : List Vec3

/-- One step of the merge fold: reuse the index of an already-seen cell or
allocate the next index. -/
def weldStep (st : WeldSt) (v : Vec3) : WeldSt :=
  match lookupA st.vertexMap (weldKey v) with
  | some index => { st with newIndices := st.newIndices ++ [index] }
  | none =>
      { vertexMap := st.vertexMap ++ [(weldKey v, st.newVertices.length)]
        newIndices := st.newIndices ++ [st.newVertices.length]
        newVertices := st.newVertices ++ [v] }

/-- The fallback of `subdivideSymmetrically` for non-indexed geometries:
merge near-duplicate vertices and synthesize an index list. -/
def mergeVertices (vertices : List Vec3) : List Vec3 × List ℕ :=
  let st := vertices.foldl weldStep ⟨[], [], []⟩
  (st.newVertices, st.newIndices)

/-- The three edges of a triangle in source traversal order:
(i0,i1), (i1,i2), (i2,i0). -/
def triangleEdges (t : ℕ × ℕ × ℕ) : List (ℕ × ℕ) :=
  [(t.1, t.2.1), (t.2.1, t.2.2), (t.2.2, t.1)]

/-- The per-edge marking condition of `subdivideSymmetrically`, the
source's two sequential guards as one conjunction: the edge is NOT skipped
by `edgeLength <= maxEdgeLength * 1.5`, and its midpoint is within
`localRadius * 0.8` of some symmetry point. -/
def edgeNeedsSubdivision (localPoints : List Vec3)
    (localRadius maxEdgeLength : ℝ) (v1 v2 : Vec3) : Prop :=
  ¬(v1.distanceTo v2 ≤ maxEdgeLength * 1.5) ∧
    ∃ p ∈ localPoints,
      (Vec3.scale 0.5 (v1 + v2)).distanceTo p < localRadius * 0.8

/-- Insert an edge key into an insertion-ordered set-list (JavaScript
`Set.add`). -/
def insertKey (s : List (ℕ × ℕ)) (e : ℕ × ℕ) : List (ℕ × ℕ) :=
  if e ∈ s then s else s ++ [e]

/-- Mark pass over one triangle: test each of its three edges. -/
def markTriangle (vertices localPoints : List Vec3)
    (localRadius maxEdgeLength : ℝ) (s : List (ℕ × ℕ)) (t : ℕ × ℕ × ℕ) :
    List (ℕ × ℕ) :=
  (triangleEdges t).foldl
    (fun s e =>
      if edgeNeedsSubdivision localPoints localRadius maxEdgeLength
          (getV vertices e.1) (getV vertices e.2)
      then insertKey s (makeEdgeKey e.1 e.2)
      else s) s

/-- The `edgesToSubdivide` set before the quality-propagation passes. -/
def initialMarks (vertices : List Vec3) (triangles : List (ℕ × ℕ × ℕ))
    (localPoints : List Vec3) (localRadius maxEdgeLength : ℝ) :
    List (ℕ × ℕ) :=
  triangles.foldl (markTriangle vertices localPoints localRadius maxEdgeLength) []

/-- `buildEdgeAdjacency` read back as a function: the triangle indices
incident to an edge key, in increasing order (the insertion order of the
source's map; a doubled key inside one degenerate triangle lists that
triangle once rather than twice, which feeds the idempotent per-triangle
propagation step identically). -/
def edgeTriangles (triangles : List (ℕ × ℕ × ℕ)) (e : ℕ × ℕ) : List ℕ :=
  (List.range triangles.length).filter fun ti =>
    e ∈ (triangleEdges (triangles.getD ti (0, 0, 0))).map
      fun ed => makeEdgeKey ed.1 ed.2

/-- `if (!edgesToSubdivide.has(e) && !edgesToAdd.has(e)) edgesToAdd.add(e)`. -/
def addIfNew (marked acc : List (ℕ × ℕ)) (e : ℕ × ℕ) : List (ℕ × ℕ) :=
  if e ∉ marked ∧ e ∉ acc then acc ++ [e] else acc

/-- Propagation contribution of one incident triangle: when exactly two of
its edges are marked, queue the remaining edges. -/
def propagateTriangle (triangles : List (ℕ × ℕ × ℕ)) (marked : List (ℕ × ℕ))
    (acc : List (ℕ × ℕ)) (ti : ℕ) : List (ℕ × ℕ) :=
  let t := triangles.getD ti (0, 0, 0)
  let e01 := makeEdgeKey t.1 t.2.1
  let e12 := makeEdgeKey t.2.1 t.2.2
  let e20 := makeEdgeKey t.2.2 t.1
  let cnt := (if e01 ∈ marked then 1 else 0) + (if e12 ∈ marked then 1 else 0) +
    (if e20 ∈ marked then 1 else 0)
  if cnt = 2 then addIfNew marked (addIfNew marked (addIfNew marked acc e01) e12) e20
  else acc

/-- One quality-propagation pass: the `edgesToAdd` accumulated by scanning
every currently marked edge's incident triangles. -/
def passAdds (triangles : List (ℕ × ℕ × ℕ)) (marked : List (ℕ × ℕ)) :
    List (ℕ × ℕ) :=
  marked.foldl
    (fun acc e => (edgeTriangles triangles e).foldl (propagateTriangle triangles marked) acc)
    []

/-- The bounded propagation loop (`while (changed && iterations < 5)`):
each pass merges its additions; the loop stops early when a pass adds
nothing. -/
def propagate (triangles : List (ℕ × ℕ × ℕ)) : ℕ → List (ℕ × ℕ) → List (ℕ × ℕ)
  | 0, marked => marked
  | fuel + 1, marked =>
      let adds := passAdds triangles marked
      if adds.isEmpty then marked
      else propagate triangles fuel (marked ++ adds)

/-- The final `edgesToSubdivide` set, in insertion order. -/
def finalMarked (vertices : List Vec3) (triangles : List (ℕ × ℕ × ℕ))
    (localPoints : List Vec3) (localRadius maxEdgeLength : ℝ) :
    List (ℕ × ℕ) :=
  propagate triangles 5
    (initialMarks vertices triangles localPoints localRadius maxEdgeLength)

/-- Midpoint vertex for one marked edge, exactly as the source: the average
of the endpoints, projected back to the sphere of the average radius when
both endpoint lengths are within 0.3 of that average
(`midpoint.normalize().multiplyScalar(avgLength)`). -/
def createMidpoint (vertices : List Vec3) (e : ℕ × ℕ) : Vec3 :=
  let v1 := getV vertices e.1
  let v2 := getV vertices e.2
  let midpoint := Vec3.scale 0.5 (v1 + v2)
  let v1Length := v1.len
  let v2Length := v2.len
  let avgLength := (v1Length + v2Length) * 0.5
  if |v1Length - avgLength| < 0.3 ∧ |v2Length - avgLength| < 0.3 then
    Vec3.scale avgLength midpoint.normalize
  else midpoint

/-- State of the midpoint-creation fold: the growing vertex list and the
edge-to-midpoint-index map. -/
structure MidSt where
  newVertices : List Vec3
  edgeMidpoints : List ((ℕ × ℕ) × ℕ)

/-- The midpoint-creation loop over the marked edges, in set-iteration
(= insertion) order. -/
def createMidpoints (vertices : List Vec3) (marked : List (ℕ × ℕ)) : MidSt :=
  marked.foldl
    (fun st e =>
      { newVertices := st.newVertices ++ [createMidpoint vertices e]
        edgeMidpoints := st.edgeMidpoints ++ [(e, st.newVertices.length)] })
    ⟨vertices, []⟩

/-- The edge-midpoint map written directly: the k-th marked edge gets the
index `n + k` after the n original vertices. -/
def enumFrom (n : ℕ) : List (ℕ × ℕ) → List ((ℕ × ℕ) × ℕ)
  | [] => []
  | e :: rest => (e, n) :: enumFrom (n + 1) rest

/-- The 8-way re-triangulation switch, emitted triangles in source order;
the pattern is which of the three edges have a midpoint. -/
def emitTriangles (i0 i1 i2 : ℕ) (m01 m12 m20 : Option ℕ) :
    List (ℕ × ℕ × ℕ) :=
  match m01, m12, m20 with
  | none, none, none => [(i0, i1, i2)]
  | some m01, none, none => [(i0, m01, i2), (m01, i1, i2)]
  | none, some m12, none => [(i0, i1, m12), (i0, m12, i2)]
  | some m01, some m12, none => [(i0, m01, i2), (m01, i1, m12), (m01, m12, i2)]
  | none, none, some m20 => [(i0, i1, m20), (i1, i2, m20)]
  | some m01, none, some m20 => [(i0, m01, m20), (m01, i1, i2), (m20, m01, i2)]
  | none, some m12, some m20 => [(i0, i1, m12), (i0, m12, m20), (m20, m12, i2)]
  | some m01, some m12, some m20 =>
      [(i0, m01, m20), (i1, m12, m01), (i2, m20, m12), (m01, m12, m20)]

/-- Re-triangulate one original triangle by looking its edge keys up in the
midpoint map. -/
def retriangulateTri (mids : List ((ℕ × ℕ) × ℕ)) (t : ℕ × ℕ × ℕ) :
    List (ℕ × ℕ × ℕ) :=
  emitTriangles t.1 t.2.1 t.2.2
    (lookupA mids (makeEdgeKey t.1 t.2.1))
    (lookupA mids (makeEdgeKey t.2.1 t.2.2))
    (lookupA mids (makeEdgeKey t.2.2 t.1))

/-- Flatten a triangle list back into a flat index list. -/
def flattenTris (ts : List (ℕ × ℕ × ℕ)) : List ℕ :=
  ts.flatMap fun t => [t.1, t.2.1, t.2.2]

/-- Cross product (THREE.Vector3.cross). -/
def cross (a b : Vec3) : Vec3 :=
  ⟨a.y * b.z - a.z * b.y, a.z * b.x - a.x * b.z, a.x * b.y - a.y * b.x⟩

/-- One face's contribution to THREE.BufferGeometry.computeVertexNormals:
add the face cross product `(pC − pB) × (pA − pB)` to each corner normal. -/
def addFaceNormal (verts : List Vec3) (ns : List Vec3) (t : ℕ × ℕ × ℕ) :
    List Vec3 :=
  let pA := getV verts t.1
  let pB := getV verts t.2.1
  let pC := getV verts t.2.2
  let cr := cross (pC - pB) (pA - pB)
  let ns := ns.set t.1 (getV ns t.1 + cr)
  let ns := ns.set t.2.1 (getV ns t.2.1 + cr)
  ns.set t.2.2 (getV ns t.2.2 + cr)

/-- THREE.BufferGeometry.computeVertexNormals for an indexed geometry:
accumulate face normals, then normalize per vertex. -/
def computeVertexNormals (verts : List Vec3) (idx : List ℕ) : List Vec3 :=
  ((toTriples idx).foldl (addFaceNormal verts) (verts.map fun _ => Vec3.zero)).map
    Vec3.normalize

/-- symmetricSubdivision.ts `subdivideSymmetrically`: mark long edges near
any symmetry point, propagate for quality, create midpoints, and
re-triangulate; returns the input geometry unchanged when the position
attribute is missing or no edge is marked. -/
def subdivideSymmetrically (geometry : BufferGeometry)
    (localPoints : List Vec3) (localRadius maxEdgeLength : ℝ) :
    BufferGeometry :=
  match geometry.position with
  | none => geometry
  | some verts0 =>
    let vi : List Vec3 × List ℕ :=
      match geometry.index with
      | none => mergeVertices verts0
      | some idx => (verts0, idx)
    let vertices := vi.1
    let triangles := toTriples vi.2
    let marked := finalMarked vertices triangles localPoints localRadius maxEdgeLength
    if marked.isEmpty then geometry
    else
      let st := createMidpoints vertices marked
      let newIndices := flattenTris (triangles.flatMap (retriangulateTri st.edgeMidpoints))
      { position := some st.newVertices
        normal := some (computeVertexNormals st.newVertices newIndices)
        index := some newIndices }

/- ===================================================================
   Spec-side definitions (written from the claims' words, for the
   refinement-style comparisons)
   =================================================================== -/

/-- Claim C5's marking rule, from the spec's words: an edge of some
triangle is marked iff its length exceeds `1.5 × maxEdgeLength` and its
midpoint lies within `0.8 × localRadius` of at least one of the given
symmetry points (original or mirror alike). -/
def specMarkedEdge (vertices : List Vec3) (triangles : List (ℕ × ℕ × ℕ))
    (localPoints : List Vec3) (localRadius maxEdgeLength : ℝ)
    (e : ℕ × ℕ) : Prop :=
  ∃ t ∈ triangles, ∃ ed ∈ triangleEdges t, makeEdgeKey ed.1 ed.2 = e ∧
    maxEdgeLength * 1.5 < (getV vertices ed.1).distanceTo (getV vertices ed.2) ∧
    ∃ p ∈ localPoints,
      (Vec3.scale 0.5 (getV vertices ed.1 + getV vertices ed.2)).distanceTo p <
        localRadius * 0.8

/-- Claim C7's midpoint description, from the spec's words: the average of
the edge's two endpoints, except that when both endpoints lie at nearly
the same distance from the origin — each within an absolute tolerance of
0.3 of the average of the two distances — the midpoint is snapped onto the
sphere whose radius is that average: same direction, length rescaled
(with the source's guard leaving a zero-length midpoint where it is). -/
def specSubdividedMidpoint (v1 v2 : Vec3) : Vec3 :=
  let mid := Vec3.scale 0.5 (v1 + v2)
  let avg := (v1.len + v2.len) / 2
  if |v1.len - avg| < 0.3 ∧ |v2.len - avg| < 0.3 then
    Vec3.scale (avg / (if mid.len = 0 then 1 else mid.len)) mid
  else mid

/-- Barycentric chart for the winding-order check of claim C6, scaled by 2
to stay in the integers: the parent corners 0,1,2 at (0,0), (2,0), (0,2)
and the midpoints of edges 01, 12, 20 at the canonical labels 3, 4, 5. -/
def baryAssign : ℕ → ℤ × ℤ
  | 0 => (0, 0)
  | 1 => (2, 0)
  | 2 => (0, 2)
  | 3 => (1, 0)
  | 4 => (1, 1)
  | 5 => (0, 1)
  | _ => (0, 0)

/-- Twice the signed area of a triangle in the 2-d chart; its sign is the
winding orientation. -/
def orient2 (p q r : ℤ × ℤ) : ℤ :=
  (q.1 - p.1) * (r.2 - p.2) - (q.2 - p.2) * (r.1 - p.1)

/- ===================================================================
   sculptingEngine.ts : the deformation step
   =================================================================== -/

/-- The sculpting tools the deformation dispatches on ("add", "subtract",
"push"). -/
inductive ToolType where
  | add
  | subtract
  | push
deriving DecidableEq

/-- JavaScript Math.sign. -/
def jsign (t : ℝ) : ℝ := if t < 0 then -1 else if 0 < t then 1 else 0

/-- The per-symmetry-point mirror configuration computed by
`applyDeformation`: which coordinates changed sign relative to the original
click point (`Math.sign(symPoint.x) !== Math.sign(clickPoint.x)`, ...). -/
def mirrorConfigOf (clickPoint symPoint : Vec3) : Axes :=
  { x := decide (jsign symPoint.x ≠ jsign clickPoint.x)
    y := decide (jsign symPoint.y ≠ jsign clickPoint.y)
    z := decide (jsign symPoint.z ≠ jsign clickPoint.z) }

/-- sculptingEngine.ts `calculateDirection`.  For the push tool: no previous
point means no direction; otherwise the movement vector, mirrored per the
configuration (the same per-axis negation as `applyMirror`), rejected when
shorter than 0.001, else normalized.  For add/subtract: the average normal,
mirrored and re-normalized when a mirror configuration is present. -/
def calculateDirection (tool : ToolType) (avgNormal clickPoint : Vec3)
    (previousPoint : Option Vec3) (mirrorConfig : Option Axes) : Option Vec3 :=
  match tool with
  | .push =>
      match previousPoint with
      | none => none
      | some prev =>
          let direction := clickPoint - prev
          let direction :=
            match mirrorConfig with
            | some config => applyMirror config direction
            | none => direction
          if direction.len < (0.001 : ℝ) then none
          else some direction.normalize
  | _ =>
      let direction := avgNormal
      match mirrorConfig with
      | some config => some (applyMirror config direction).normalize
      | none => some direction

/-- sculptingEngine.ts `calculateAverageNormal`: average the normals of all
vertices within half the brush radius of the click point; the up vector
when the normal attribute is absent or no vertex is in range. -/
def calculateAverageNormal (positions : List Vec3) (normals : Option (List Vec3))
    (clickPoint : Vec3) (brushSize : ℝ) : Vec3 :=
  match normals with
  | none => ⟨0, 1, 0⟩
  | some normalsArr =>
      let acc := (List.range positions.length).foldl
        (fun (acc : Vec3 × ℕ) i =>
          if (getV positions i).distanceTo clickPoint < brushSize * 0.5 then
            (acc.1 + getV normalsArr i, acc.2 + 1)
          else acc)
        (Vec3.zero, 0)
      if 0 < acc.2 then (acc.1.divideScalar (acc.2 : ℝ)).normalize
      else ⟨0, 1, 0⟩

/-- Displacement of one vertex for one symmetry point: the body of the
inner vertex loop of `applyDeformation` (quadratic falloff, tool-specific
multiplier, displacement along the direction). -/
def deformVertex (tool : ToolType) (brushSize brushStrength : ℝ)
    (clickPoint : Vec3) (previousPoint : Option Vec3) (invert : Bool)
    (symPoint direction vertex : Vec3) : Vec3 :=
  let distance := vertex.distanceTo symPoint
  if distance < brushSize then
    let falloff := 1 - distance / brushSize
    let strength := brushStrength * falloff * falloff * 0.02
    let multiplier := strength
    let multiplier :=
      if tool = .push then
        let moveDistance :=
          match previousPoint with
          | some prev => clickPoint.distanceTo prev
          | none => 0
        let m := strength * min (moveDistance * 250) 50.0
        if invert then -m else m
      else
        let m := if tool = .subtract then -strength else multiplier
        if invert then -m else m
    vertex + Vec3.scale multiplier direction
  else vertex

/-- One symmetry point's pass of `applyDeformation`: derive the mirror
configuration (none for the original point), compute the direction, skip
the point when there is none, else displace every vertex within the brush
radius and record whether any vertex was in range. -/
def deformForPoint (tool : ToolType) (brushSize brushStrength : ℝ)
    (clickPoint : Vec3) (previousPoint : Option Vec3) (invert : Bool)
    (avgNormal : Vec3) (isOriginal : Bool) (st : List Vec3 × Bool)
    (symPoint : Vec3) : List Vec3 × Bool :=
  let mirrorConfig :=
    if isOriginal then none else some (mirrorConfigOf clickPoint symPoint)
  match calculateDirection tool avgNormal clickPoint previousPoint mirrorConfig with
  | none => st
  | some direction =>
      (st.1.map
        (deformVertex tool brushSize brushStrength clickPoint previousPoint invert
          symPoint direction),
       st.2 || st.1.any fun v => decide (v.distanceTo symPoint < brushSize))

/-- The outer symmetry-point loop of `applyDeformation`; the first point is
the original (`symIdx === 0`), later points are mirrors.  Each pass reads
the positions the previous passes produced, as the in-place writes do. -/
def deformLoop (tool : ToolType) (brushSize brushStrength : ℝ)
    (clickPoint : Vec3) (previousPoint : Option Vec3) (invert : Bool)
    (avgNormal : Vec3) : Bool → List Vec3 → List Vec3 × Bool → List Vec3 × Bool
  | _, [], st => st
  | isOriginal, symPoint :: rest, st =>
      deformLoop tool brushSize brushStrength clickPoint previousPoint invert
        avgNormal false rest
        (deformForPoint tool brushSize brushStrength clickPoint previousPoint invert
          avgNormal isOriginal st symPoint)

/-- sculptingEngine.ts `applyDeformation` on the raw buffers: compute the
average normal once from the original click point, then run every symmetry
point's pass; returns the final positions and the modified flag. -/
def applyDeformationCore (positions : List Vec3) (normals : Option (List Vec3))
    (symmetryPoints : List Vec3) (tool : ToolType)
    (brushSize brushStrength : ℝ) (clickPoint : Vec3)
    (previousPoint : Option Vec3) (invert : Bool) : List Vec3 × Bool :=
  let avgNormal := calculateAverageNormal positions normals clickPoint brushSize
  deformLoop tool brushSize brushStrength clickPoint previousPoint invert avgNormal
    true symmetryPoints (positions, false)

/-- Reading `.array` of a missing attribute throws a TypeError in the
source. -/
inductive GeomError where
  | missingPosition
deriving DecidableEq

/-- sculptingEngine.ts `applyDeformation` at the geometry level: reading the
position attribute of a geometry that lacks one is a thrown TypeError,
modelled as `Except.error`. -/
def applyDeformation (geometry : BufferGeometry) (symmetryPoints : List Vec3)
    (tool : ToolType) (brushSize brushStrength : ℝ) (clickPoint : Vec3)
    (previousPoint : Option Vec3) (invert : Bool) :
    Except GeomError (BufferGeometry × Bool) :=
  match geometry.position with
  | none => Except.error GeomError.missingPosition
  | some positions =>
      let r := applyDeformationCore positions geometry.normal symmetryPoints tool
        brushSize brushStrength clickPoint previousPoint invert
      Except.ok ({ geometry with position := some r.1 }, r.2)

/- ===================================================================
   ensureGeometrySymmetry.ts
   =================================================================== -/

/-- The on-symmetry-plane test of `ensureGeometrySymmetry`:
`(!axes.x || |v.x| < tolerance) && ...`, written with implications. -/
def onPlane (axes : Axes) (tolerance : ℝ) (v : Vec3) : Prop :=
  (axes.x = true → |v.x| < tolerance) ∧ (axes.y = true → |v.y| < tolerance) ∧
    (axes.z = true → |v.z| < tolerance)

/-- State of the vertex-pairing loop: the `vertexToMirror` map (an
association list, each key set at most once) and the growing
`newVertices`. -/
structure PairSt where
  pairs : List (ℕ × ℕ)
  newVerts : List Vec3

/-- The inner scan
`for (let j = i + 1; j < vertices.length; j++) ...`: the first unpaired
index at or after `j` whose vertex is within `tolerance` of the target
mirror position.  The bound is the length of the input vertex list, as in
the source. -/
def findMirrorFrom (vertices : List Vec3) (pairs : List (ℕ × ℕ)) (target : Vec3)
    (tolerance : ℝ) (j : ℕ) : Option ℕ :=
  if j < vertices.length then
    if (lookupA pairs j).isSome then findMirrorFrom vertices pairs target tolerance (j + 1)
    else if target.distanceTo (getV vertices j) < tolerance then some j
    else findMirrorFrom vertices pairs target tolerance (j + 1)
  else none
termination_by vertices.length - j
decreasing_by all_goals omega

/-- One iteration of the vertex-pairing loop of `ensureGeometrySymmetry`:
skip already-paired vertices; a vertex on every active symmetry plane is
its own mirror; otherwise pair with the first unpaired vertex within
tolerance of the mirrored position, or synthesize the mirrored vertex.
(The mirrored position is computed by the same per-axis negation as
`applyMirror`.) -/
def pairStep (axes : Axes) (tolerance : ℝ) (vertices : List Vec3) (st : PairSt)
    (i : ℕ) : PairSt :=
  if (lookupA st.pairs i).isSome then st
  else
    let v := getV vertices i
    if onPlane axes tolerance v then { st with pairs := st.pairs ++ [(i, i)] }
    else
      let mirrorPosition := applyMirror axes v
      match findMirrorFrom vertices st.pairs mirrorPosition tolerance (i + 1) with
      | some j => { st with pairs := st.pairs ++ [(i, j), (j, i)] }
      | none =>
          { pairs := st.pairs ++ [(i, st.newVerts.length), (st.newVerts.length, i)]
            newVerts := st.newVerts ++ [mirrorPosition] }

/-- The pairing loop cut off after its first `i` iterations. -/
def pairRun (axes : Axes) (tolerance : ℝ) (vertices : List Vec3) (i : ℕ) :
    PairSt :=
  (List.range i).foldl (pairStep axes tolerance vertices) ⟨[], vertices⟩

/-- The complete vertex-pairing loop (`for i = 0 .. vertices.length - 1`). -/
def pairAll (axes : Axes) (tolerance : ℝ) (vertices : List Vec3) : PairSt :=
  pairRun axes tolerance vertices vertices.length

/-- The synthesized index list of `ensureGeometrySymmetry` for a
non-indexed geometry (`for (i = 0; i < n; i += 3) push(i, i+1, i+2)`). -/
def synthIndexFrom (n i : ℕ) : List ℕ :=
  if i < n then i :: (i + 1) :: (i + 2) :: synthIndexFrom n (i + 3) else []
termination_by n - i
decreasing_by omega

/-- Canonical key of a triangle: the multiset of its corners.  (The source
canonicalizes through JavaScript string sort plus a "-" join; two triples
get the same key exactly when they are the same multiset, which this
models.) -/
def triKey (a b c : ℕ) : Multiset ℕ := {a, b, c}

/-- The duplicate check of the mirror-triangle pass: some triple of the
current index list has the candidate key. -/
def triExists (indices : List ℕ) (key : Multiset ℕ) : Prop :=
  ∃ t ∈ toTriples indices, triKey t.1 t.2.1 t.2.2 = key

/-- State of the mirror-triangle pass: the growing index list and the
processed-key set. -/
structure MirrorTriSt where
  newIndices : List ℕ
  processed : List (Multiset ℕ)

/-- One triangle of the mirror-triangle pass: map the corners through the
pairing (`vertexToMirror.get(i)!`), skip identity triangles and
already-processed keys, and append the mirrored triangle with reversed
winding when no equivalent triangle exists yet. -/
def mirrorTriStep (pairs : List (ℕ × ℕ)) (st : MirrorTriSt) (t : ℕ × ℕ × ℕ) :
    MirrorTriSt :=
  let m0 := (lookupA pairs t.1).getD 0
  let m1 := (lookupA pairs t.2.1).getD 0
  let m2 := (lookupA pairs t.2.2).getD 0
  if ¬(m0 = t.1 ∧ m1 = t.2.1 ∧ m2 = t.2.2) then
    let key := triKey m0 m1 m2
    if key ∈ st.processed then st
    else
      { newIndices :=
          if triExists st.newIndices key then st.newIndices
          else st.newIndices ++ [m0, m2, m1]
        processed := st.processed ++ [key] }
  else st

/-- ensureGeometrySymmetry.ts `ensureGeometrySymmetry`: no-op when no axis
is active; pair every vertex with its mirror, synthesizing missing mirror
vertices; return the input geometry unchanged when nothing was synthesized;
otherwise mirror the affected triangles and build the new geometry.
Reading the position attribute of a geometry without one throws, modelled
as an error. -/
def ensureGeometrySymmetry (geometry : BufferGeometry) (axes : Axes)
    (tolerance : ℝ) : Except GeomError BufferGeometry :=
  if !axes.x && !axes.y && !axes.z then Except.ok geometry
  else
    match geometry.position with
    | none => Except.error GeomError.missingPosition
    | some vertices =>
        let indexArray : List ℕ :=
          match geometry.index with
          | some idx => idx
          | none => synthIndexFrom vertices.length 0
        let st := pairAll axes tolerance vertices
        if st.newVerts.length = vertices.length then Except.ok geometry
        else
          let tri := (toTriples indexArray).foldl (mirrorTriStep st.pairs)
            ⟨indexArray, []⟩
          Except.ok
            { position := some st.newVerts
              normal := some (computeVertexNormals st.newVerts tri.newIndices)
              index := some tri.newIndices }

end Sculpt

namespace Sculpt

/-- C1: for a point and a symmetry-axis configuration with k enabled axes,
`calculateSymmetryPoints` returns exactly `2 ^ k` points; the original point
is first; with no axes enabled the result is `[point]`; the result is the
point consed onto one mirror image per configuration, where the
configuration list depends only on the axes (so the order is independent of
the point's value); and the configurations are exactly the nonempty subsets
of the enabled axes, each occurring once (mirrors negate exactly the
coordinates of that subset, by definition of `applyMirror`). -/
theorem calculateSymmetryPoints_spec (p : Vec3) (axes : Axes) :
    (calculateSymmetryPoints p axes).length = 2 ^ countEnabled axes ∧
    (calculateSymmetryPoints p axes).head? = some p ∧
    calculateSymmetryPoints p ⟨false, false, false⟩ = [p] ∧
    calculateSymmetryPoints p axes =
      p :: (mirrorConfigs axes).map (fun c => applyMirror c p) ∧
    (mirrorConfigs axes).Nodup ∧
    (∀ c : Axes, c ∈ mirrorConfigs axes ↔
      (axesSubset c axes ∧ c ≠ ⟨false, false, false⟩)) := by
  rcases axes with ⟨ax, ay, az⟩
  cases ax <;> cases ay <;> cases az <;>
    refine ⟨by simp [calculateSymmetryPoints, mirrorConfigs, countEnabled],
      by simp [calculateSymmetryPoints, mirrorConfigs],
      by simp [calculateSymmetryPoints],
      by simp [calculateSymmetryPoints, mirrorConfigs],
      by decide, fun c => by revert c; decide⟩

/- Helper lemmas about the midpoint-creation fold. -/

theorem createMidpoints_foldl (vertices : List Vec3) (marked : List (ℕ × ℕ))
    (st : MidSt) :
    marked.foldl
      (fun st e =>
        { newVertices := st.newVertices ++ [createMidpoint vertices e]
          edgeMidpoints := st.edgeMidpoints ++ [(e, st.newVertices.length)] : MidSt })
      st =
    { newVertices := st.newVertices ++ marked.map (createMidpoint vertices)
      edgeMidpoints := st.edgeMidpoints ++ enumFrom st.newVertices.length marked } := by
  induction marked generalizing st with
  | nil => simp [enumFrom]
  | cons e rest ih =>
      simp only [List.foldl_cons, ih, enumFrom, List.map_cons]
      simp

theorem createMidpoints_eq (vertices : List Vec3) (marked : List (ℕ × ℕ)) :
    createMidpoints vertices marked =
      { newVertices := vertices ++ marked.map (createMidpoint vertices)
        edgeMidpoints := enumFrom vertices.length marked } := by
  unfold createMidpoints
  rw [createMidpoints_foldl]
  simp

theorem lookupA_enumFrom {n : ℕ} {l : List (ℕ × ℕ)} {e : ℕ × ℕ} {v : ℕ}
    (h : lookupA (enumFrom n l) e = some v) : n ≤ v ∧ v < n + l.length := by
  induction l generalizing n with
  | nil => simp [enumFrom, lookupA] at h
  | cons a rest ih =>
      rw [enumFrom, lookupA] at h
      by_cases ha : a = e
      · rw [if_pos ha] at h
        have hv : n = v := Option.some.injEq _ _ ▸ h
        simp [← hv]
      · rw [if_neg ha] at h
        have := ih h
        simp only [List.length_cons]
        omega

/-- The shared structural fact behind C7 and C10: on an indexed geometry the
output position list is the input vertices followed by one created midpoint
per finally-marked edge, in marking order. -/
theorem subdivide_indexed_position (verts : List Vec3) (nrm : Option (List Vec3))
    (idx : List ℕ) (pts : List Vec3) (r mel : ℝ) :
    (subdivideSymmetrically ⟨some verts, nrm, some idx⟩ pts r mel).position =
      some (verts ++
        (finalMarked verts (toTriples idx) pts r mel).map (createMidpoint verts)) := by
  unfold subdivideSymmetrically
  by_cases h : (finalMarked verts (toTriples idx) pts r mel).isEmpty
  · have he : finalMarked verts (toTriples idx) pts r mel = [] :=
      List.isEmpty_iff.mp h
    simp [he]
  · simp only [h]
    simp [createMidpoints_eq]

/-- C10: on an indexed input mesh, subdivision keeps the input vertices as
an unchanged prefix of the output vertex list (same order, same positions)
and appends all newly created midpoint vertices after them. -/
theorem subdivide_vertex_prefix (verts : List Vec3) (nrm : Option (List Vec3))
    (idx : List ℕ) (pts : List Vec3) (r mel : ℝ) :
    (((subdivideSymmetrically ⟨some verts, nrm, some idx⟩ pts r mel).position.getD
      []).take verts.length = verts) ∧
    (((subdivideSymmetrically ⟨some verts, nrm, some idx⟩ pts r mel).position.getD
      []).drop verts.length =
      (finalMarked verts (toTriples idx) pts r mel).map (createMidpoint verts)) := by
  rw [subdivide_indexed_position]
  exact ⟨List.take_left verts _, List.drop_left verts _⟩

/-- Pointwise agreement of the source's midpoint construction with the
spec's description of it. -/
theorem createMidpoint_eq_spec (vertices : List Vec3) (e : ℕ × ℕ) :
    createMidpoint vertices e =
      specSubdividedMidpoint (getV vertices e.1) (getV vertices e.2) := by
  unfold createMidpoint specSubdividedMidpoint Vec3.normalize
  dsimp only
  have havg : ((getV vertices e.1).len + (getV vertices e.2).len) * 0.5 =
      ((getV vertices e.1).len + (getV vertices e.2).len) / 2 := by ring
  rw [havg]
  by_cases h : |(getV vertices e.1).len -
      ((getV vertices e.1).len + (getV vertices e.2).len) / 2| < 0.3 ∧
      |(getV vertices e.2).len -
      ((getV vertices e.1).len + (getV vertices e.2).len) / 2| < 0.3
  · simp only [if_pos h]
    unfold Vec3.scale
    simp only [Vec3.mk.injEq]
    refine ⟨by ring, by ring, by ring⟩
  · simp only [if_neg h]

/-- C7: for every marked edge, the vertex subdivision creates is exactly the
spec's described midpoint: the average of the edge's endpoints, snapped to
the sphere of the average endpoint distance when both endpoints lie within
the 0.3 tolerance of that average distance. -/
theorem subdivide_midpoint_values (verts : List Vec3) (nrm : Option (List Vec3))
    (idx : List ℕ) (pts : List Vec3) (r mel : ℝ) :
    (subdivideSymmetrically ⟨some verts, nrm, some idx⟩ pts r mel).position =
      some (verts ++ (finalMarked verts (toTriples idx) pts r mel).map
        (fun e => specSubdividedMidpoint (getV verts e.1) (getV verts e.2))) := by
  rw [subdivide_indexed_position]
  congr 2
  exact List.map_congr_left fun e _ => createMidpoint_eq_spec verts e

/- Helper lemmas about the edge-marking fold (for C5). -/

theorem mem_insertKey {s : List (ℕ × ℕ)} {e a : ℕ × ℕ} :
    a ∈ insertKey s e ↔ a ∈ s ∨ a = e := by
  unfold insertKey
  by_cases h : e ∈ s
  · simp only [if_pos h]
    constructor
    · exact Or.inl
    · rintro (ha | rfl)
      · exact ha
      · exact h
  · simp [if_neg h]

theorem mem_markTriangle {vertices localPoints : List Vec3} {r mel : ℝ}
    {s : List (ℕ × ℕ)} {t : ℕ × ℕ × ℕ} {a : ℕ × ℕ} :
    a ∈ markTriangle vertices localPoints r mel s t ↔
      a ∈ s ∨ ∃ ed ∈ triangleEdges t, makeEdgeKey ed.1 ed.2 = a ∧
        edgeNeedsSubdivision localPoints r mel (getV vertices ed.1)
          (getV vertices ed.2) := by
  unfold markTriangle
  rw [triangleEdges]
  simp only [List.foldl_cons, List.foldl_nil]
  by_cases h1 : edgeNeedsSubdivision localPoints r mel (getV vertices t.1)
      (getV vertices t.2.1) <;>
    by_cases h2 : edgeNeedsSubdivision localPoints r mel (getV vertices t.2.1)
      (getV vertices t.2.2) <;>
    by_cases h3 : edgeNeedsSubdivision localPoints r mel (getV vertices t.2.2)
      (getV vertices t.1) <;>
    simp [h1, h2, h3, mem_insertKey, triangleEdges] <;>
    aesop

theorem mem_initialMarks_aux (vertices localPoints : List Vec3) (r mel : ℝ)
    (ts : List (ℕ × ℕ × ℕ)) (s : List (ℕ × ℕ)) (a : ℕ × ℕ) :
    a ∈ ts.foldl (markTriangle vertices localPoints r mel) s ↔
      a ∈ s ∨ ∃ t ∈ ts, ∃ ed ∈ triangleEdges t, makeEdgeKey ed.1 ed.2 = a ∧
        edgeNeedsSubdivision localPoints r mel (getV vertices ed.1)
          (getV vertices ed.2) := by
  induction ts generalizing s with
  | nil => simp
  | cons t ts ih =>
      simp only [List.foldl_cons]
      rw [ih, mem_markTriangle]
      simp only [List.mem_cons]
      aesop

/-- C5: before the quality-propagation passes, an edge key is marked iff it
is an edge of some triangle whose length exceeds `1.5 × maxEdgeLength` and
whose midpoint lies within `0.8 × localRadius` of at least one symmetry
point — mirror points count exactly like the original click point. -/
theorem initialMarks_iff_spec (vertices : List Vec3)
    (triangles : List (ℕ × ℕ × ℕ)) (localPoints : List Vec3)
    (localRadius maxEdgeLength : ℝ) (e : ℕ × ℕ) :
    e ∈ initialMarks vertices triangles localPoints localRadius maxEdgeLength ↔
      specMarkedEdge vertices triangles localPoints localRadius maxEdgeLength e := by
  unfold initialMarks specMarkedEdge
  rw [mem_initialMarks_aux]
  simp only [List.not_mem_nil, false_or]
  constructor
  · rintro ⟨t, ht, ed, hed, hkey, hlen, hnear⟩
    exact ⟨t, ht, ed, hed, hkey, not_le.mp hlen, hnear⟩
  · rintro ⟨t, ht, ed, hed, hkey, hlen, hnear⟩
    exact ⟨t, ht, ed, hed, hkey, not_le.mpr hlen, hnear⟩

/-- C6: the re-triangulation patterns. A triangle with no marked edge is
emitted unchanged; one marked edge gives 2 children; two give 3; three give
4, including the center triangle of its midpoints; and in the barycentric
chart of the parent every child of every pattern has the parent's (positive)
winding orientation. -/
theorem emitTriangles_patterns :
    (∀ i0 i1 i2 : ℕ, emitTriangles i0 i1 i2 none none none = [(i0, i1, i2)]) ∧
    (∀ i0 i1 i2 m : ℕ,
      (emitTriangles i0 i1 i2 (some m) none none).length = 2 ∧
      (emitTriangles i0 i1 i2 none (some m) none).length = 2 ∧
      (emitTriangles i0 i1 i2 none none (some m)).length = 2) ∧
    (∀ i0 i1 i2 ma mb : ℕ,
      (emitTriangles i0 i1 i2 (some ma) (some mb) none).length = 3 ∧
      (emitTriangles i0 i1 i2 (some ma) none (some mb)).length = 3 ∧
      (emitTriangles i0 i1 i2 none (some ma) (some mb)).length = 3) ∧
    (∀ i0 i1 i2 m01 m12 m20 : ℕ,
      (emitTriangles i0 i1 i2 (some m01) (some m12) (some m20)).length = 4 ∧
      (m01, m12, m20) ∈ emitTriangles i0 i1 i2 (some m01) (some m12) (some m20)) ∧
    (0 < orient2 (baryAssign 0) (baryAssign 1) (baryAssign 2)) ∧
    (∀ b1 b2 b3 : Bool,
      ∀ t ∈ emitTriangles 0 1 2 (cond b1 (some 3) none) (cond b2 (some 4) none)
        (cond b3 (some 5) none),
      0 < orient2 (baryAssign t.1) (baryAssign t.2.1) (baryAssign t.2.2)) := by
  refine ⟨fun i0 i1 i2 => rfl,
    fun i0 i1 i2 m => ⟨rfl, rfl, rfl⟩,
    fun i0 i1 i2 ma mb => ⟨rfl, rfl, rfl⟩,
    fun i0 i1 i2 m01 m12 m20 => ⟨rfl, by simp [emitTriangles]⟩,
    by decide, by decide⟩

/- Helper lemmas for the index-safety claim C4. -/

theorem toTriples_mem :
    ∀ (idx : List ℕ) (t : ℕ × ℕ × ℕ), t ∈ toTriples idx →
      t.1 ∈ idx ∧ t.2.1 ∈ idx ∧ t.2.2 ∈ idx
  | [], t, h => by simp [toTriples] at h
  | [_], t, h => by simp [toTriples] at h
  | [_, _], t, h => by simp [toTriples] at h
  | i0 :: i1 :: i2 :: rest, t, h => by
      rw [toTriples] at h
      rcases List.mem_cons.mp h with rfl | h
      · simp
      · have := toTriples_mem rest t h
        simp only [List.mem_cons]
        tauto

theorem emitTriangles_bound {n : ℕ} {i0 i1 i2 : ℕ} {m01 m12 m20 : Option ℕ}
    (h0 : i0 < n) (h1 : i1 < n) (h2 : i2 < n)
    (hm01 : ∀ m, m01 = some m → m < n)
    (hm12 : ∀ m, m12 = some m → m < n)
    (hm20 : ∀ m, m20 = some m → m < n) :
    ∀ t ∈ emitTriangles i0 i1 i2 m01 m12 m20,
      t.1 < n ∧ t.2.1 < n ∧ t.2.2 < n := by
  rcases m01 with _ | a <;> rcases m12 with _ | b <;> rcases m20 with _ | c <;>
    intro t ht <;> simp [emitTriangles] at ht <;> aesop

/-- The output index list of subdivision on an indexed geometry, in the
case where some edge was marked. -/
theorem subdivide_indexed_index (verts : List Vec3) (nrm : Option (List Vec3))
    (idx : List ℕ) (pts : List Vec3) (r mel : ℝ)
    (h : ¬(finalMarked verts (toTriples idx) pts r mel).isEmpty) :
    (subdivideSymmetrically ⟨some verts, nrm, some idx⟩ pts r mel).index =
      some (flattenTris ((toTriples idx).flatMap (retriangulateTri
        (enumFrom verts.length (finalMarked verts (toTriples idx) pts r mel))))) := by
  unfold subdivideSymmetrically
  simp only [h]
  simp [createMidpoints_eq]

/-- C4 (amended to indexed meshes): on an indexed input mesh whose triangle
indices are in range, every triangle of the subdivided mesh references only
vertex indices below the output vertex count, and the vertex count never
decreases.  (The counterexample theorem shows the count clause fails for
non-indexed input, where the vertex-merging fallback can shrink the mesh.) -/
theorem subdivide_safety_indexed (verts : List Vec3) (nrm : Option (List Vec3))
    (idx : List ℕ) (pts : List Vec3) (r mel : ℝ)
    (hwf : ∀ i ∈ idx, i < verts.length) (h3 : idx.length % 3 = 0) :
    (∀ j ∈ (subdivideSymmetrically ⟨some verts, nrm, some idx⟩ pts r mel).index.getD [],
      j < ((subdivideSymmetrically ⟨some verts, nrm, some idx⟩ pts r mel).position.getD []).length) ∧
    verts.length ≤
      ((subdivideSymmetrically ⟨some verts, nrm, some idx⟩ pts r mel).position.getD []).length := by
  have hpos := subdivide_indexed_position verts nrm idx pts r mel
  by_cases h : (finalMarked verts (toTriples idx) pts r mel).isEmpty
  · have he : finalMarked verts (toTriples idx) pts r mel = [] :=
      List.isEmpty_iff.mp h
    have hsame : subdivideSymmetrically ⟨some verts, nrm, some idx⟩ pts r mel =
        ⟨some verts, nrm, some idx⟩ := by
      unfold subdivideSymmetrically
      simp [finalMarked] at he ⊢
      simp [he]
    rw [hsame]
    exact ⟨hwf, le_refl _⟩
  · have hidx := subdivide_indexed_index verts nrm idx pts r mel h
    rw [hidx, hpos]
    simp only [Option.getD_some, List.length_append, List.length_map]
    constructor
    · intro j hj
      rw [flattenTris, List.mem_flatMap] at hj
      obtain ⟨t, ht, hjt⟩ := hj
      rw [List.mem_flatMap] at ht
      obtain ⟨t0, ht0, htt⟩ := ht
      have hcomps := toTriples_mem idx t0 ht0
      have h0 : t0.1 < verts.length := hwf _ hcomps.1
      have h1 : t0.2.1 < verts.length := hwf _ hcomps.2.1
      have h2 : t0.2.2 < verts.length := hwf _ hcomps.2.2
      set N := verts.length + (finalMarked verts (toTriples idx) pts r mel).length with hN
      rw [retriangulateTri] at htt
      have hb := emitTriangles_bound (n := N)
        (by omega) (by omega) (by omega)
        (fun m hm => (lookupA_enumFrom hm).2)
        (fun m hm => (lookupA_enumFrom hm).2)
        (fun m hm => (lookupA_enumFrom hm).2) t htt
      simp only [List.mem_cons, List.not_mem_nil, or_false] at hjt
      rcases hjt with rfl | rfl | rfl
      · exact hb.1
      · exact hb.2.1
      · exact hb.2.2
    · exact Nat.le_add_right _ _

/-- Witness for the amended C4 at a concrete indexed one-triangle mesh
(no symmetry point is near it, so subdivision leaves it unchanged). -/
theorem subdivide_safety_indexed_witness :
    (∀ j ∈ (subdivideSymmetrically
        ⟨some [⟨0, 0, 0⟩, ⟨1, 0, 0⟩, ⟨0, 1, 0⟩], none, some [0, 1, 2]⟩
        [] 1 1).index.getD [],
      j < ((subdivideSymmetrically
        ⟨some [⟨0, 0, 0⟩, ⟨1, 0, 0⟩, ⟨0, 1, 0⟩], none, some [0, 1, 2]⟩
        [] 1 1).position.getD []).length) ∧
    ([(⟨0, 0, 0⟩ : Vec3), ⟨1, 0, 0⟩, ⟨0, 1, 0⟩]).length ≤
      ((subdivideSymmetrically
        ⟨some [⟨0, 0, 0⟩, ⟨1, 0, 0⟩, ⟨0, 1, 0⟩], none, some [0, 1, 2]⟩
        [] 1 1).position.getD []).length :=
  subdivide_safety_indexed [⟨0, 0, 0⟩, ⟨1, 0, 0⟩, ⟨0, 1, 0⟩] none [0, 1, 2] [] 1 1
    (by intro i hi; fin_cases hi <;> simp) (by rfl)


theorem roundCast (x : ℝ) (n : ℤ) (h : x = (n : ℝ)) : round x = n := by
  rw [h, round_intCast]

theorem merge_ex :
    mergeVertices [⟨0,0,0⟩, ⟨4,0,0⟩, ⟨0,1,0⟩, ⟨0,1,0⟩, ⟨4,0,0⟩, ⟨4,1,0⟩] =
      ([⟨0,0,0⟩, ⟨4,0,0⟩, ⟨0,1,0⟩, ⟨4,1,0⟩], [0,1,2,2,1,3]) := by
  have h0 : round ((0:ℝ) / 0.001) = (0:ℤ) := roundCast _ _ (by norm_num)
  have h4 : round ((4:ℝ) / 0.001) = (4000:ℤ) := roundCast _ _ (by norm_num)
  have h1 : round ((1:ℝ) / 0.001) = (1000:ℤ) := roundCast _ _ (by norm_num)
  unfold mergeVertices
  simp only [List.foldl_cons, List.foldl_nil, weldStep, weldKey, h0, h4, h1]
  rfl

theorem Vec3.add_x (a b : Vec3) : (a + b).x = a.x + b.x := rfl

theorem Vec3.add_y (a b : Vec3) : (a + b).y = a.y + b.y := rfl

theorem Vec3.add_z (a b : Vec3) : (a + b).z = a.z + b.z := rfl

theorem Vec3.sub_x (a b : Vec3) : (a - b).x = a.x - b.x := rfl

theorem Vec3.sub_y (a b : Vec3) : (a - b).y = a.y - b.y := rfl

theorem Vec3.sub_z (a b : Vec3) : (a - b).z = a.z - b.z := rfl

theorem Vec3.scale_x (s : ℝ) (a : Vec3) : (Vec3.scale s a).x = s * a.x := rfl

theorem Vec3.scale_y (s : ℝ) (a : Vec3) : (Vec3.scale s a).y = s * a.y := rfl

theorem Vec3.scale_z (s : ℝ) (a : Vec3) : (Vec3.scale s a).z = s * a.z := rfl

theorem Vec3.dist2_eq (a b : Vec3) :
    a.dist2 b = (a.x - b.x) * (a.x - b.x) + (a.y - b.y) * (a.y - b.y) +
      (a.z - b.z) * (a.z - b.z) := rfl

theorem Vec3.normSq_nonneg (a : Vec3) : 0 ≤ a.normSq := by
  unfold Vec3.normSq
  nlinarith [mul_self_nonneg a.x, mul_self_nonneg a.y, mul_self_nonneg a.z]

theorem Vec3.dist2_nonneg (a b : Vec3) : 0 ≤ a.dist2 b := Vec3.normSq_nonneg _

theorem not_distanceTo_le (a b : Vec3) {c : ℝ} (hc : 0 ≤ c)
    (h : c ^ 2 < a.dist2 b) : ¬(a.distanceTo b ≤ c) :=
  not_le.mpr ((Real.lt_sqrt hc).mpr h)

theorem distanceTo_le (a b : Vec3) {c : ℝ} (hc : 0 ≤ c)
    (h : a.dist2 b ≤ c ^ 2) : a.distanceTo b ≤ c :=
  Real.sqrt_le_iff.mpr ⟨hc, h⟩

theorem distanceTo_lt (a b : Vec3) {c : ℝ} (hc : 0 < c)
    (h : a.dist2 b < c ^ 2) : a.distanceTo b < c :=
  (Real.sqrt_lt' hc).mpr h

theorem not_distanceTo_lt (a b : Vec3) {c : ℝ} (hc : 0 ≤ c)
    (h : c ^ 2 ≤ a.dist2 b) : ¬(a.distanceTo b < c) :=
  not_lt.mpr ((Real.le_sqrt hc (Vec3.dist2_nonneg a b)).mpr h)

theorem eAB_ex : edgeNeedsSubdivision [⟨2,0,0⟩] 0.5 2 ⟨0,0,0⟩ ⟨4,0,0⟩ := by
  refine ⟨not_distanceTo_le _ _ (by norm_num) ?_, ⟨2,0,0⟩, by simp, distanceTo_lt _ _ (by norm_num) ?_⟩
  · rw [Vec3.dist2_eq]; norm_num
  · rw [Vec3.dist2_eq]
    simp only [Vec3.scale_x, Vec3.scale_y, Vec3.scale_z, Vec3.add_x, Vec3.add_y, Vec3.add_z]
    norm_num

theorem eBC_ex : ¬ edgeNeedsSubdivision [⟨2,0,0⟩] 0.5 2 ⟨4,0,0⟩ ⟨0,1,0⟩ := by
  rintro ⟨-, p, hp, hlt⟩
  simp only [List.mem_singleton] at hp
  subst hp
  refine absurd hlt (not_distanceTo_lt _ _ (by norm_num) ?_)
  rw [Vec3.dist2_eq]
  simp only [Vec3.scale_x, Vec3.scale_y, Vec3.scale_z, Vec3.add_x, Vec3.add_y, Vec3.add_z]
  norm_num

theorem eCA_ex : ¬ edgeNeedsSubdivision [⟨2,0,0⟩] 0.5 2 ⟨0,1,0⟩ ⟨0,0,0⟩ := by
  rintro ⟨hnot, -⟩
  refine hnot (distanceTo_le _ _ (by norm_num) ?_)
  rw [Vec3.dist2_eq]
  norm_num

theorem eCB_ex : ¬ edgeNeedsSubdivision [⟨2,0,0⟩] 0.5 2 ⟨0,1,0⟩ ⟨4,0,0⟩ := by
  rintro ⟨-, p, hp, hlt⟩
  simp only [List.mem_singleton] at hp
  subst hp
  refine absurd hlt (not_distanceTo_lt _ _ (by norm_num) ?_)
  rw [Vec3.dist2_eq]
  simp only [Vec3.scale_x, Vec3.scale_y, Vec3.scale_z, Vec3.add_x, Vec3.add_y, Vec3.add_z]
  norm_num

theorem eBD_ex : ¬ edgeNeedsSubdivision [⟨2,0,0⟩] 0.5 2 ⟨4,0,0⟩ ⟨4,1,0⟩ := by
  rintro ⟨hnot, -⟩
  refine hnot (distanceTo_le _ _ (by norm_num) ?_)
  rw [Vec3.dist2_eq]
  norm_num

theorem eDC_ex : ¬ edgeNeedsSubdivision [⟨2,0,0⟩] 0.5 2 ⟨4,1,0⟩ ⟨0,1,0⟩ := by
  rintro ⟨-, p, hp, hlt⟩
  simp only [List.mem_singleton] at hp
  subst hp
  refine absurd hlt (not_distanceTo_lt _ _ (by norm_num) ?_)
  rw [Vec3.dist2_eq]
  simp only [Vec3.scale_x, Vec3.scale_y, Vec3.scale_z, Vec3.add_x, Vec3.add_y, Vec3.add_z]
  norm_num

theorem init_ex :
    initialMarks [⟨0,0,0⟩, ⟨4,0,0⟩, ⟨0,1,0⟩, ⟨4,1,0⟩] [(0,1,2), (2,1,3)]
      [⟨2,0,0⟩] 0.5 2 = [(0, 1)] := by
  unfold initialMarks markTriangle
  simp only [List.foldl_cons, List.foldl_nil, triangleEdges, getV,
    List.getD_cons_zero, List.getD_cons_succ]
  rw [if_pos eAB_ex, if_neg eBC_ex, if_neg eCA_ex, if_neg eCB_ex, if_neg eBD_ex,
    if_neg eDC_ex]
  rfl

theorem final_ex :
    finalMarked [⟨0,0,0⟩, ⟨4,0,0⟩, ⟨0,1,0⟩, ⟨4,1,0⟩] (toTriples [0,1,2,2,1,3])
      [⟨2,0,0⟩] 0.5 2 = [(0, 1)] := by
  unfold finalMarked
  rw [show toTriples [0,1,2,2,1,3] = [(0,1,2), (2,1,3)] from rfl, init_ex]
  rfl

theorem subdivide_count_shrinks_nonindexed :
    ([(⟨0,0,0⟩ : Vec3), ⟨4,0,0⟩, ⟨0,1,0⟩, ⟨0,1,0⟩, ⟨4,0,0⟩, ⟨4,1,0⟩].length = 6) ∧
    ((subdivideSymmetrically
        ⟨some [⟨0,0,0⟩, ⟨4,0,0⟩, ⟨0,1,0⟩, ⟨0,1,0⟩, ⟨4,0,0⟩, ⟨4,1,0⟩], none, none⟩
        [⟨2,0,0⟩] 0.5 2).position.getD []).length = 5 ∧
    ¬(6 ≤ ((subdivideSymmetrically
        ⟨some [⟨0,0,0⟩, ⟨4,0,0⟩, ⟨0,1,0⟩, ⟨0,1,0⟩, ⟨4,0,0⟩, ⟨4,1,0⟩], none, none⟩
        [⟨2,0,0⟩] 0.5 2).position.getD []).length) := by
  have hmain : ((subdivideSymmetrically
      ⟨some [⟨0,0,0⟩, ⟨4,0,0⟩, ⟨0,1,0⟩, ⟨0,1,0⟩, ⟨4,0,0⟩, ⟨4,1,0⟩], none, none⟩
      [⟨2,0,0⟩] 0.5 2).position.getD []).length = 5 := by
    unfold subdivideSymmetrically
    simp only [merge_ex, final_ex, createMidpoints_eq]
    simp
  exact ⟨rfl, hmain, by rw [hmain]; norm_num⟩

/- Claims about the deformation step. -/

theorem deformLoop_push_none (brushSize brushStrength : ℝ) (clickPoint : Vec3)
    (invert : Bool) (avgNormal : Vec3) (pts : List Vec3) (b : Bool)
    (positions : List Vec3) :
    deformLoop .push brushSize brushStrength clickPoint none invert avgNormal
      b pts (positions, false) = (positions, false) := by
  induction pts generalizing b with
  | nil => rfl
  | cons p rest ih =>
      rw [deformLoop]
      have hstep : deformForPoint .push brushSize brushStrength clickPoint none
          invert avgNormal b (positions, false) p = (positions, false) := rfl
      rw [hstep, ih]

/-- C2: a Push stroke with no previous point is a guaranteed no-op: for
every mesh and every set of symmetry points, the deformation step reports
`modified = false` and every vertex position is returned exactly as it came
in (at the raw-buffer level and at the geometry level). -/
theorem push_no_previous_noop (positions : List Vec3)
    (normals : Option (List Vec3)) (idx : Option (List ℕ))
    (symmetryPoints : List Vec3) (brushSize brushStrength : ℝ)
    (clickPoint : Vec3) (invert : Bool) :
    applyDeformationCore positions normals symmetryPoints .push brushSize
      brushStrength clickPoint none invert = (positions, false) ∧
    applyDeformation ⟨some positions, normals, idx⟩ symmetryPoints .push
      brushSize brushStrength clickPoint none invert =
      Except.ok (⟨some positions, normals, idx⟩, false) := by
  have hcore : applyDeformationCore positions normals symmetryPoints .push
      brushSize brushStrength clickPoint none invert = (positions, false) :=
    deformLoop_push_none _ _ _ _ _ _ _ _
  refine ⟨hcore, ?_⟩
  unfold applyDeformation
  dsimp only
  rw [hcore]

theorem deformVertex_subtract_invert (brushSize brushStrength : ℝ)
    (clickPoint : Vec3) (previousPoint : Option Vec3)
    (symPoint direction vertex : Vec3) :
    deformVertex .subtract brushSize brushStrength clickPoint previousPoint true
      symPoint direction vertex =
    deformVertex .add brushSize brushStrength clickPoint previousPoint false
      symPoint direction vertex := by
  unfold deformVertex
  dsimp only
  by_cases h : vertex.distanceTo symPoint < brushSize
  · rw [if_pos h, if_pos h]
    simp

  · rw [if_neg h, if_neg h]

theorem deformForPoint_subtract_invert (brushSize brushStrength : ℝ)
    (clickPoint : Vec3) (previousPoint : Option Vec3) (avgNormal : Vec3)
    (b : Bool) (st : List Vec3 × Bool) (symPoint : Vec3) :
    deformForPoint .subtract brushSize brushStrength clickPoint previousPoint
      true avgNormal b st symPoint =
    deformForPoint .add brushSize brushStrength clickPoint previousPoint
      false avgNormal b st symPoint := by
  unfold deformForPoint
  dsimp only
  have hdir : ∀ mc, calculateDirection .subtract avgNormal clickPoint
      previousPoint mc = calculateDirection .add avgNormal clickPoint
      previousPoint mc := fun mc => rfl
  rw [hdir]
  cases hd : calculateDirection .add avgNormal clickPoint previousPoint
      (if b = true then none else some (mirrorConfigOf clickPoint symPoint)) with
  | none => rfl
  | some direction =>
      dsimp only
      congr 1
      exact List.map_congr_left fun v _ =>
        deformVertex_subtract_invert brushSize brushStrength clickPoint
          previousPoint symPoint direction v

/-- C3: the Subtract tool with `invert = true` computes exactly the same
deformation as the Add tool with `invert = false` and otherwise identical
parameters: the sign negations cancel and the direction is the same average
normal in both runs, so the output buffers and modified flag coincide. -/
theorem subtract_invert_eq_add (positions : List Vec3)
    (normals : Option (List Vec3)) (symmetryPoints : List Vec3)
    (brushSize brushStrength : ℝ) (clickPoint : Vec3)
    (previousPoint : Option Vec3) :
    applyDeformationCore positions normals symmetryPoints .subtract brushSize
      brushStrength clickPoint previousPoint true =
    applyDeformationCore positions normals symmetryPoints .add brushSize
      brushStrength clickPoint previousPoint false := by
  unfold applyDeformationCore
  dsimp only
  generalize calculateAverageNormal positions normals clickPoint brushSize = avgNormal
  generalize (positions, false) = st
  have hloop : ∀ (pts : List Vec3) (b : Bool) (s : List Vec3 × Bool),
      deformLoop .subtract brushSize brushStrength clickPoint previousPoint true
        avgNormal b pts s =
      deformLoop .add brushSize brushStrength clickPoint previousPoint false
        avgNormal b pts s := by
    intro pts
    induction pts with
    | nil => intro b s; rfl
    | cons p rest ih =>
        intro b s
        rw [deformLoop, deformLoop, deformForPoint_subtract_invert]
        exact ih false _
  exact hloop symmetryPoints true st

/- Claim C9: behaviour on a missing position buffer. -/

/-- C9 (amended): a missing position buffer is not surfaced by subdivision —
`subdivideSymmetrically` silently returns its input unchanged — while the
deformation step does fail (the source throws reading the attribute,
modelled as an error). -/
theorem missing_position_behaviour (g : BufferGeometry) (pts : List Vec3)
    (r mel brushSize brushStrength : ℝ) (tool : ToolType) (clickPoint : Vec3)
    (previousPoint : Option Vec3) (invert : Bool) (h : g.position = none) :
    subdivideSymmetrically g pts r mel = g ∧
    applyDeformation g pts tool brushSize brushStrength clickPoint
      previousPoint invert = Except.error GeomError.missingPosition := by
  unfold subdivideSymmetrically applyDeformation
  rw [h]
  exact ⟨rfl, rfl⟩

/-- C9 counterexample: at a concrete geometry with no position attribute,
subdivision silently degrades to a no-op — it returns its input unchanged
rather than surfacing an error, contradicting the claim. -/
theorem subdivide_missing_position_noop :
    subdivideSymmetrically ⟨none, none, none⟩ [] 1 1 = ⟨none, none, none⟩ := rfl

/-- Witness for the amended C9 at a concrete attribute-less geometry. -/
theorem missing_position_behaviour_witness :
    subdivideSymmetrically ⟨none, none, some []⟩ [] 1 1 = ⟨none, none, some []⟩ ∧
    applyDeformation ⟨none, none, some []⟩ [] .add 1 1 ⟨0, 0, 0⟩ none false =
      Except.error GeomError.missingPosition :=
  missing_position_behaviour ⟨none, none, some []⟩ [] 1 1 1 1 .add ⟨0, 0, 0⟩
    none false rfl


theorem lookupA_append {α β : Type} [DecidableEq α] (p q : List (α × β)) (k : α) :
    lookupA (p ++ q) k =
      match lookupA p k with
      | some v => some v
      | none => lookupA q k := by
  induction p with
  | nil => simp [lookupA]
  | cons a rest ih =>
      rw [List.cons_append, lookupA, lookupA]
      by_cases h : a.1 = k
      · simp [h]
      · simp only [if_neg h]
        exact ih

theorem lookupA_append_some {α β : Type} [DecidableEq α] {p : List (α × β)}
    {k : α} {v : β} (q : List (α × β)) (h : lookupA p k = some v) :
    lookupA (p ++ q) k = some v := by
  rw [lookupA_append, h]

theorem lookupA_append_none {α β : Type} [DecidableEq α] {p : List (α × β)}
    {k : α} (q : List (α × β)) (h : lookupA p k = none) :
    lookupA (p ++ q) k = lookupA q k := by
  rw [lookupA_append, h]

theorem getV_append_left {l : List Vec3} (t : List Vec3) {i : ℕ}
    (h : i < l.length) : getV (l ++ t) i = getV l i := by
  unfold getV
  induction l generalizing i with
  | nil => simp at h
  | cons a rest ih =>
      cases i with
      | zero => rfl
      | succ n =>
          simp only [List.cons_append, List.getD_cons_succ]
          exact ih (by simpa using h)

theorem getV_append_middle (l : List Vec3) (x : Vec3) (t : List Vec3) :
    getV (l ++ x :: t) l.length = x := by
  unfold getV
  induction l with
  | nil => rfl
  | cons a rest ih => simpa using ih

theorem distanceTo_self (a : Vec3) : a.distanceTo a = 0 := by
  have h : a.dist2 a = 0 := by
    unfold Vec3.dist2 Vec3.normSq
    simp only [Vec3.sub_x, Vec3.sub_y, Vec3.sub_z]
    ring
  rw [Vec3.distanceTo, h, Real.sqrt_zero]

theorem findMirrorFrom_le (vertices : List Vec3) (pairs : List (ℕ × ℕ))
    (target : Vec3) (tolerance : ℝ) (j0 j : ℕ)
    (h : findMirrorFrom vertices pairs target tolerance j0 = some j) :
    j < vertices.length ∧ (lookupA pairs j).isSome = false := by
  rw [findMirrorFrom] at h
  by_cases hj : j0 < vertices.length
  · rw [if_pos hj] at h
    by_cases hs : (lookupA pairs j0).isSome
    · rw [if_pos hs] at h
      exact findMirrorFrom_le vertices pairs target tolerance (j0 + 1) j h
    · rw [if_neg hs] at h
      by_cases hd : target.distanceTo (getV vertices j0) < tolerance
      · rw [if_pos hd] at h
        obtain rfl : j0 = j := by injection h
        exact ⟨hj, by simpa using hs⟩
      · rw [if_neg hd] at h
        exact findMirrorFrom_le vertices pairs target tolerance (j0 + 1) j h
  · rw [if_neg hj] at h
    exact absurd h (by simp)
termination_by vertices.length - j0
decreasing_by all_goals omega

theorem findMirrorFrom_none_spec (vertices : List Vec3) (pairs : List (ℕ × ℕ))
    (target : Vec3) (tolerance : ℝ) (j0 : ℕ)
    (h : findMirrorFrom vertices pairs target tolerance j0 = none) :
    ∀ j, j0 ≤ j → j < vertices.length →
      (lookupA pairs j).isSome = true ∨
        ¬(target.distanceTo (getV vertices j) < tolerance) := by
  intro j hj0 hjlen
  rw [findMirrorFrom] at h
  by_cases hj : j0 < vertices.length
  · rw [if_pos hj] at h
    by_cases hs : (lookupA pairs j0).isSome
    · rw [if_pos hs] at h
      rcases Nat.eq_or_lt_of_le hj0 with rfl | hlt
      · exact Or.inl hs
      · exact findMirrorFrom_none_spec vertices pairs target tolerance (j0 + 1) h j
          hlt hjlen
    · rw [if_neg hs] at h
      by_cases hd : target.distanceTo (getV vertices j0) < tolerance
      · rw [if_pos hd] at h
        exact absurd h (by simp)
      · rw [if_neg hd] at h
        rcases Nat.eq_or_lt_of_le hj0 with rfl | hlt
        · exact Or.inr hd
        · exact findMirrorFrom_none_spec vertices pairs target tolerance (j0 + 1) h j
            hlt hjlen
  · omega
termination_by vertices.length - j0
decreasing_by all_goals omega

theorem findMirrorFrom_append_some (vertices t2 : List Vec3)
    (pairs : List (ℕ × ℕ)) (target : Vec3) (tolerance : ℝ) (j0 j : ℕ)
    (h : findMirrorFrom vertices pairs target tolerance j0 = some j) :
    findMirrorFrom (vertices ++ t2) pairs target tolerance j0 = some j := by
  rw [findMirrorFrom] at h
  rw [findMirrorFrom]
  by_cases hj : j0 < vertices.length
  · have hj2 : j0 < (vertices ++ t2).length := by
      rw [List.length_append]; omega
    rw [if_pos hj] at h
    rw [if_pos hj2, getV_append_left t2 hj]
    by_cases hs : (lookupA pairs j0).isSome
    · rw [if_pos hs] at h ⊢
      exact findMirrorFrom_append_some vertices t2 pairs target tolerance (j0 + 1) j h
    · rw [if_neg hs] at h ⊢
      by_cases hd : target.distanceTo (getV vertices j0) < tolerance
      · rw [if_pos hd] at h ⊢
        exact h
      · rw [if_neg hd] at h ⊢
        exact findMirrorFrom_append_some vertices t2 pairs target tolerance (j0 + 1) j h
  · rw [if_neg hj] at h
    exact absurd h (by simp)
termination_by vertices.length - j0
decreasing_by all_goals omega

theorem findMirrorFrom_reaches (vertices : List Vec3) (pairs : List (ℕ × ℕ))
    (target : Vec3) (tolerance : ℝ) (j0 m : ℕ)
    (hm : j0 ≤ m) (hmlen : m < vertices.length)
    (hskip : ∀ j, j0 ≤ j → j < m →
      (lookupA pairs j).isSome = true ∨
        ¬(target.distanceTo (getV vertices j) < tolerance))
    (hnm : (lookupA pairs m).isSome = false)
    (hdist : target.distanceTo (getV vertices m) < tolerance) :
    findMirrorFrom vertices pairs target tolerance j0 = some m := by
  rw [findMirrorFrom]
  rw [if_pos (by omega)]
  rcases Nat.eq_or_lt_of_le hm with rfl | hlt
  · rw [if_neg (by simp [hnm]), if_pos hdist]
  · have step : ∀ rest, (if (lookupA pairs j0).isSome then rest
        else if target.distanceTo (getV vertices j0) < tolerance then some j0
        else rest) = rest ∨ ((lookupA pairs j0).isSome = true ∧
        (if (lookupA pairs j0).isSome then rest
        else if target.distanceTo (getV vertices j0) < tolerance then some j0
        else rest) = rest) := by
      intro rest
      rcases hskip j0 le_rfl hlt with hs | hd
      · rw [if_pos hs]; exact Or.inl rfl
      · by_cases hs : (lookupA pairs j0).isSome
        · rw [if_pos hs]; exact Or.inl rfl
        · rw [if_neg hs, if_neg hd]; exact Or.inl rfl
    rcases step (findMirrorFrom vertices pairs target tolerance (j0 + 1)) with
      heq | ⟨-, heq⟩ <;>
    · rw [heq]
      exact findMirrorFrom_reaches vertices pairs target tolerance (j0 + 1) m hlt
        hmlen (fun j hj1 hj2 => hskip j (by omega) hj2) hnm hdist
termination_by vertices.length - j0
decreasing_by all_goals omega

theorem pairRun_zero (axes : Axes) (tol : ℝ) (vs : List Vec3) :
    pairRun axes tol vs 0 = ⟨[], vs⟩ := rfl

theorem pairRun_succ (axes : Axes) (tol : ℝ) (vs : List Vec3) (i : ℕ) :
    pairRun axes tol vs (i + 1) =
      pairStep axes tol vs (pairRun axes tol vs i) i := by
  unfold pairRun
  rw [List.range_succ, List.foldl_append, List.foldl_cons, List.foldl_nil]

theorem pairStep_newVerts_mono (axes : Axes) (tol : ℝ) (vs : List Vec3)
    (st : PairSt) (i : ℕ) :
    ∃ t, (pairStep axes tol vs st i).newVerts = st.newVerts ++ t := by
  unfold pairStep
  by_cases hs : (lookupA st.pairs i).isSome
  · exact ⟨[], by rw [if_pos hs]; simp⟩
  · rw [if_neg hs]
    dsimp only
    by_cases hop : onPlane axes tol (getV vs i)
    · exact ⟨[], by rw [if_pos hop]; simp⟩
    · rw [if_neg hop]
      cases findMirrorFrom vs st.pairs (applyMirror axes (getV vs i)) tol (i + 1) with
      | some j => exact ⟨[], by simp⟩
      | none => exact ⟨[applyMirror axes (getV vs i)], rfl⟩

theorem pairRun_newVerts_mono (axes : Axes) (tol : ℝ) (vs : List Vec3)
    (i k : ℕ) :
    ∃ t, (pairRun axes tol vs (i + k)).newVerts =
      (pairRun axes tol vs i).newVerts ++ t := by
  induction k with
  | zero => exact ⟨[], by simp⟩
  | succ k ih =>
      obtain ⟨t, ht⟩ := ih
      obtain ⟨t2, ht2⟩ := pairStep_newVerts_mono axes tol vs
        (pairRun axes tol vs (i + k)) (i + k)
      refine ⟨t ++ t2, ?_⟩
      rw [show i + (k + 1) = (i + k) + 1 by omega, pairRun_succ, ht2, ht,
        List.append_assoc]

theorem pairRun_newVerts_verts (axes : Axes) (tol : ℝ) (vs : List Vec3)
    (i : ℕ) : ∃ t, (pairRun axes tol vs i).newVerts = vs ++ t := by
  obtain ⟨t, ht⟩ := pairRun_newVerts_mono axes tol vs 0 i
  rw [pairRun_zero, Nat.zero_add] at ht
  exact ⟨t, ht⟩

theorem pairRun_newVerts_ge (axes : Axes) (tol : ℝ) (vs : List Vec3) (i : ℕ) :
    vs.length ≤ (pairRun axes tol vs i).newVerts.length := by
  obtain ⟨t, ht⟩ := pairRun_newVerts_verts axes tol vs i
  rw [ht, List.length_append]
  omega

theorem lookupA_append_isSome {α β : Type} [DecidableEq α]
    {p q : List (α × β)} {k : α}
    (h : (lookupA (p ++ q) k).isSome = true) :
    (lookupA p k).isSome = true ∨ (lookupA q k).isSome = true := by
  rw [lookupA_append] at h
  cases hp : lookupA p k with
  | some v => exact Or.inl rfl
  | none =>
      rw [hp] at h
      exact Or.inr h

theorem lookupA_append_isSome_left {α β : Type} [DecidableEq α]
    {p : List (α × β)} {k : α} (q : List (α × β))
    (h : (lookupA p k).isSome = true) :
    (lookupA (p ++ q) k).isSome = true := by
  rw [lookupA_append]
  cases hp : lookupA p k with
  | some v => rfl
  | none => rw [hp] at h; simp at h

theorem lookupA_one_isSome {α β : Type} [DecidableEq α] {a k : α} {b : β}
    (h : (lookupA [(a, b)] k).isSome = true) : k = a := by
  rw [lookupA] at h
  by_cases hk : a = k
  · exact hk.symm
  · rw [if_neg hk] at h
    simp [lookupA] at h

theorem lookupA_two_isSome {α β : Type} [DecidableEq α] {a c k : α} {b d : β}
    (h : (lookupA [(a, b), (c, d)] k).isSome = true) : k = a ∨ k = c := by
  rw [lookupA] at h
  by_cases hk : a = k
  · exact Or.inl hk.symm
  · rw [if_neg hk] at h
    exact Or.inr (lookupA_one_isSome h)

theorem pairRun_keyBound (axes : Axes) (tol : ℝ) (vs : List Vec3) :
    ∀ i, i ≤ vs.length → ∀ k,
      (lookupA (pairRun axes tol vs i).pairs k).isSome = true →
      k < (pairRun axes tol vs i).newVerts.length := by
  intro i
  induction i with
  | zero => intro _ k h; rw [pairRun_zero] at h; simp [lookupA] at h
  | succ i ih =>
      intro hi k h
      have hi' : i ≤ vs.length := by omega
      have hin : i < vs.length := by omega
      have hge := pairRun_newVerts_ge axes tol vs i
      rw [pairRun_succ] at h ⊢
      obtain ⟨tm, htm⟩ := pairStep_newVerts_mono axes tol vs (pairRun axes tol vs i) i
      unfold pairStep at h ⊢
      by_cases hs : (lookupA (pairRun axes tol vs i).pairs i).isSome
      · rw [if_pos hs] at h ⊢
        exact ih hi' k h
      · rw [if_neg hs] at h ⊢
        dsimp only at h ⊢
        by_cases hop : onPlane axes tol (getV vs i)
        · rw [if_pos hop] at h ⊢
          dsimp only at h ⊢
          rcases lookupA_append_isSome h with hp | hp
          · exact ih hi' k hp
          · have := lookupA_one_isSome hp
            omega
        · rw [if_neg hop] at h ⊢
          cases hf : findMirrorFrom vs (pairRun axes tol vs i).pairs
              (applyMirror axes (getV vs i)) tol (i + 1) with
          | some j =>
              rw [hf] at h
              dsimp only at h ⊢
              have hj := findMirrorFrom_le vs _ _ _ _ _ hf
              rcases lookupA_append_isSome h with hp | hp
              · exact ih hi' k hp
              · rcases lookupA_two_isSome hp with rfl | rfl
                · omega
                · omega
          | none =>
              rw [hf] at h
              dsimp only at h ⊢
              rw [List.length_append, List.length_singleton]
              rcases lookupA_append_isSome h with hp | hp
              · have := ih hi' k hp
                omega
              · rcases lookupA_two_isSome hp with rfl | rfl
                · omega
                · omega

theorem pairRun_created_paired (axes : Axes) (tol : ℝ) (vs : List Vec3) :
    ∀ i, i ≤ vs.length → ∀ k, vs.length ≤ k →
      k < (pairRun axes tol vs i).newVerts.length →
      (lookupA (pairRun axes tol vs i).pairs k).isSome = true := by
  intro i
  induction i with
  | zero => intro _ k h1 h2; rw [pairRun_zero] at h2; dsimp only at h2; omega
  | succ i ih =>
      intro hi k h1 h2
      have hi' : i ≤ vs.length := by omega
      have hin : i < vs.length := by omega
      have hge := pairRun_newVerts_ge axes tol vs i
      rw [pairRun_succ] at h2 ⊢
      unfold pairStep at h2 ⊢
      by_cases hs : (lookupA (pairRun axes tol vs i).pairs i).isSome
      · rw [if_pos hs] at h2 ⊢
        exact ih hi' k h1 h2
      · rw [if_neg hs] at h2 ⊢
        dsimp only at h2 ⊢
        by_cases hop : onPlane axes tol (getV vs i)
        · rw [if_pos hop] at h2 ⊢
          dsimp only at h2 ⊢
          exact lookupA_append_isSome_left _ (ih hi' k h1 h2)
        · rw [if_neg hop] at h2 ⊢
          cases hf : findMirrorFrom vs (pairRun axes tol vs i).pairs
              (applyMirror axes (getV vs i)) tol (i + 1) with
          | some j =>
              rw [hf] at h2
              dsimp only at h2 ⊢
              exact lookupA_append_isSome_left _ (ih hi' k h1 h2)
          | none =>
              rw [hf] at h2
              dsimp only at h2 ⊢
              rw [List.length_append, List.length_singleton] at h2
              by_cases hk : k < (pairRun axes tol vs i).newVerts.length
              · exact lookupA_append_isSome_left _ (ih hi' k h1 hk)
              · have hkL : k = (pairRun axes tol vs i).newVerts.length := by omega
                subst hkL
                have hnone : lookupA (pairRun axes tol vs i).pairs
                    (pairRun axes tol vs i).newVerts.length = none := by
                  cases hl : lookupA (pairRun axes tol vs i).pairs
                      (pairRun axes tol vs i).newVerts.length with
                  | none => rfl
                  | some v =>
                      have := pairRun_keyBound axes tol vs i hi' _ (by rw [hl]; rfl)
                      omega
                rw [lookupA_append_none _ hnone, lookupA]
                rw [if_neg (by omega)]
                rw [lookupA, if_pos rfl]
                rfl

theorem pairRun_sim (axes : Axes) (tol : ℝ) (htol : 0 < tol) (vs : List Vec3) :
    ∀ i, i ≤ vs.length →
      pairRun axes tol (pairAll axes tol vs).newVerts i =
        ⟨(pairRun axes tol vs i).pairs, (pairAll axes tol vs).newVerts⟩ := by
  intro i
  induction i with
  | zero => intro _; rw [pairRun_zero, pairRun_zero]
  | succ i ih =>
      intro hi
      have hi' : i ≤ vs.length := by omega
      have hin : i < vs.length := by omega
      have hE := ih hi'
      rw [pairRun_succ, pairRun_succ, hE]
      obtain ⟨tW, htW⟩ := pairRun_newVerts_verts axes tol vs vs.length
      have hWeq : (pairAll axes tol vs).newVerts = vs ++ tW := htW
      set st1 := pairRun axes tol vs i with hst1
      set W := (pairAll axes tol vs).newVerts with hWdef
      have hgv : getV W i = getV vs i := by
        rw [hWeq]
        exact getV_append_left tW hin
      unfold pairStep
      by_cases hs : (lookupA st1.pairs i).isSome
      · rw [if_pos hs, if_pos hs]
      · rw [if_neg hs, if_neg hs]
        dsimp only
        rw [hgv]
        by_cases hop : onPlane axes tol (getV vs i)
        · rw [if_pos hop, if_pos hop]
        · rw [if_neg hop, if_neg hop]
          cases hf : findMirrorFrom vs st1.pairs (applyMirror axes (getV vs i))
              tol (i + 1) with
          | some j =>
              have hf2 : findMirrorFrom W st1.pairs
                  (applyMirror axes (getV vs i)) tol (i + 1) = some j := by
                rw [hWeq]
                exact findMirrorFrom_append_some vs tW _ _ _ _ _ hf
              rw [hf2]
          | none =>
              have hL : vs.length ≤ st1.newVerts.length :=
                pairRun_newVerts_ge axes tol vs i
              have hnext : (pairRun axes tol vs (i + 1)).newVerts =
                  st1.newVerts ++ [applyMirror axes (getV vs i)] := by
                rw [pairRun_succ]
                unfold pairStep
                rw [if_neg hs]
                dsimp only
                rw [if_neg hop, hf]
              obtain ⟨t2, ht2⟩ := pairRun_newVerts_mono axes tol vs (i + 1)
                (vs.length - (i + 1))
              rw [show i + 1 + (vs.length - (i + 1)) = vs.length by omega] at ht2
              have hWexp : W = (st1.newVerts ++ [applyMirror axes (getV vs i)]) ++ t2 := by
                rw [hWdef]
                show (pairRun axes tol vs vs.length).newVerts = _
                rw [ht2, hnext]
              have hgetmp : getV W st1.newVerts.length = applyMirror axes (getV vs i) := by
                rw [hWexp, List.append_assoc]
                exact getV_append_middle _ _ t2
              have hLW : st1.newVerts.length < W.length := by
                rw [hWexp]
                simp only [List.length_append, List.length_singleton]
                omega
              have hnone : (lookupA st1.pairs st1.newVerts.length).isSome = false := by
                cases hl : lookupA st1.pairs st1.newVerts.length with
                | none => rfl
                | some v =>
                    have hkb := pairRun_keyBound axes tol vs i hi'
                      st1.newVerts.length (by rw [hl]; rfl)
                    rw [← hst1] at hkb
                    omega
              have hskip : ∀ j, i + 1 ≤ j → j < st1.newVerts.length →
                  (lookupA st1.pairs j).isSome = true ∨
                    ¬((applyMirror axes (getV vs i)).distanceTo (getV W j) < tol) := by
                intro j hj1 hj2
                by_cases hjn : j < vs.length
                · rcases findMirrorFrom_none_spec vs st1.pairs _ tol (i + 1) hf j
                      hj1 hjn with hcase | hcase
                  · exact Or.inl hcase
                  · refine Or.inr ?_
                    rw [show getV W j = getV vs j from by
                      rw [hWeq]; exact getV_append_left tW hjn]
                    exact hcase
                · exact Or.inl (pairRun_created_paired axes tol vs i hi' j
                    (by omega) hj2)
              have hreach : findMirrorFrom W st1.pairs
                  (applyMirror axes (getV vs i)) tol (i + 1) =
                    some st1.newVerts.length :=
                findMirrorFrom_reaches W st1.pairs _ tol (i + 1)
                  st1.newVerts.length (by omega) hLW hskip hnone
                  (by rw [hgetmp, distanceTo_self]; exact htol)
              rw [hreach]

theorem pairAll_created_paired (axes : Axes) (tol : ℝ) (vs : List Vec3) :
    ∀ k, vs.length ≤ k → k < (pairAll axes tol vs).newVerts.length →
      (lookupA (pairAll axes tol vs).pairs k).isSome = true :=
  pairRun_created_paired axes tol vs vs.length le_rfl

theorem pairAll_fixpoint (axes : Axes) (tol : ℝ) (htol : 0 < tol)
    (vs : List Vec3) :
    pairAll axes tol (pairAll axes tol vs).newVerts =
      ⟨(pairAll axes tol vs).pairs, (pairAll axes tol vs).newVerts⟩ := by
  have hge : vs.length ≤ (pairAll axes tol vs).newVerts.length :=
    pairRun_newVerts_ge axes tol vs vs.length
  have hstep : ∀ k, vs.length + k ≤ (pairAll axes tol vs).newVerts.length →
      pairRun axes tol (pairAll axes tol vs).newVerts (vs.length + k) =
        ⟨(pairAll axes tol vs).pairs, (pairAll axes tol vs).newVerts⟩ := by
    intro k
    induction k with
    | zero =>
        intro _
        exact pairRun_sim axes tol htol vs vs.length le_rfl
    | succ k ih =>
        intro hk
        rw [show vs.length + (k + 1) = (vs.length + k) + 1 by omega,
          pairRun_succ, ih (by omega)]
        unfold pairStep
        dsimp only
        rw [if_pos (pairAll_created_paired axes tol vs
          (vs.length + k) (by omega) (by omega))]
  have hfin := hstep ((pairAll axes tol vs).newVerts.length - vs.length)
    (by omega)
  rw [show vs.length + ((pairAll axes tol vs).newVerts.length - vs.length) =
    (pairAll axes tol vs).newVerts.length by omega] at hfin
  exact hfin

/-- C8 (amended to strictly positive tolerances): applying
`ensureGeometrySymmetry` to the output of a first application returns that
output unchanged — the second pairing pass pairs every synthesized mirror
vertex with its creator instead of synthesizing anything, so zero vertices
and zero triangles are added.  (The counterexample theorem shows this fails
for tolerance 0.) -/
theorem ensure_idempotent_pos_tol (g g1 : BufferGeometry) (axes : Axes)
    (tol : ℝ) (htol : 0 < tol)
    (h : ensureGeometrySymmetry g axes tol = Except.ok g1) :
    ensureGeometrySymmetry g1 axes tol = Except.ok g1 := by
  unfold ensureGeometrySymmetry at h ⊢
  by_cases hax : (!axes.x && !axes.y && !axes.z) = true
  · rw [if_pos hax]
  · rw [if_neg hax] at h ⊢
    cases hp : g.position with
    | none =>
        rw [hp] at h
        exact absurd h (by simp)
    | some verts =>
        rw [hp] at h
        dsimp only at h
        by_cases hlen : (pairAll axes tol verts).newVerts.length = verts.length
        · rw [if_pos hlen] at h
          obtain rfl : g = g1 := by injection h
          rw [hp]
          dsimp only
          rw [if_pos hlen]
        · rw [if_neg hlen] at h
          injection h with h
          subst h
          dsimp only
          rw [pairAll_fixpoint axes tol htol verts]
          dsimp only
          rw [if_pos rfl]

theorem ensure_run1_ex (tol : ℝ) (htol : tol ≤ 1) :
    ensureGeometrySymmetry ⟨some [⟨1, 0, 0⟩], none, some []⟩
      ⟨true, false, false⟩ tol =
    Except.ok ⟨some [⟨1, 0, 0⟩, ⟨-1, 0, 0⟩],
      some (computeVertexNormals [⟨1, 0, 0⟩, ⟨-1, 0, 0⟩] []), some []⟩ := by
  have honp : ¬ onPlane ⟨true, false, false⟩ tol ⟨1, 0, 0⟩ := by
    rintro ⟨h1, -, -⟩
    have := h1 rfl
    rw [abs_one] at this
    linarith
  have hpa : pairAll ⟨true, false, false⟩ tol [⟨1, 0, 0⟩] =
      ⟨[(0, 1), (1, 0)], [⟨1, 0, 0⟩, ⟨-1, 0, 0⟩]⟩ := by
    show pairRun _ _ _ 1 = _
    rw [show (1 : ℕ) = 0 + 1 from rfl, pairRun_succ, pairRun_zero]
    unfold pairStep
    rw [if_neg (by simp [lookupA])]
    dsimp only
    rw [show getV [(⟨1, 0, 0⟩ : Vec3)] 0 = ⟨1, 0, 0⟩ from rfl]
    rw [if_neg honp]
    rw [findMirrorFrom, if_neg (by norm_num)]
    rfl
  unfold ensureGeometrySymmetry
  rw [if_neg (by simp)]
  dsimp only
  rw [hpa]
  dsimp only
  rw [if_neg (by norm_num)]
  rfl

theorem ensure_run2_zero :
    ensureGeometrySymmetry ⟨some [⟨1, 0, 0⟩, ⟨-1, 0, 0⟩],
      some (computeVertexNormals [⟨1, 0, 0⟩, ⟨-1, 0, 0⟩] []), some []⟩
      ⟨true, false, false⟩ 0 =
    Except.ok ⟨some [⟨1, 0, 0⟩, ⟨-1, 0, 0⟩, ⟨-1, 0, 0⟩, ⟨-(-1), 0, 0⟩],
      some (computeVertexNormals [⟨1, 0, 0⟩, ⟨-1, 0, 0⟩, ⟨-1, 0, 0⟩, ⟨-(-1), 0, 0⟩] []),
      some []⟩ := by
  have honp1 : ¬ onPlane ⟨true, false, false⟩ (0 : ℝ) ⟨1, 0, 0⟩ := by
    rintro ⟨h1, -, -⟩
    have := h1 rfl
    rw [abs_one] at this
    linarith
  have honp2 : ¬ onPlane ⟨true, false, false⟩ (0 : ℝ) ⟨-1, 0, 0⟩ := by
    rintro ⟨h1, -, -⟩
    have := h1 rfl
    rw [abs_neg, abs_one] at this
    linarith
  have hstep0 : pairStep ⟨true, false, false⟩ 0 [⟨1, 0, 0⟩, ⟨-1, 0, 0⟩]
      ⟨[], [⟨1, 0, 0⟩, ⟨-1, 0, 0⟩]⟩ 0 =
      ⟨[(0, 2), (2, 0)], [⟨1, 0, 0⟩, ⟨-1, 0, 0⟩, ⟨-1, 0, 0⟩]⟩ := by
    unfold pairStep
    rw [if_neg (by simp [lookupA])]
    dsimp only
    rw [show getV [(⟨1, 0, 0⟩ : Vec3), ⟨-1, 0, 0⟩] 0 = ⟨1, 0, 0⟩ from rfl]
    rw [if_neg honp1]
    rw [show applyMirror ⟨true, false, false⟩ ⟨1, 0, 0⟩ = ⟨-1, 0, 0⟩ from rfl]
    rw [findMirrorFrom, if_pos (by simp)]
    rw [if_neg (by simp [lookupA])]
    rw [show getV [(⟨1, 0, 0⟩ : Vec3), ⟨-1, 0, 0⟩] (0 + 1) = ⟨-1, 0, 0⟩ from rfl]
    rw [if_neg (by rw [distanceTo_self]; norm_num)]
    rw [findMirrorFrom, if_neg (by simp)]
    rfl
  have hstep1 : pairStep ⟨true, false, false⟩ 0 [⟨1, 0, 0⟩, ⟨-1, 0, 0⟩]
      ⟨[(0, 2), (2, 0)], [⟨1, 0, 0⟩, ⟨-1, 0, 0⟩, ⟨-1, 0, 0⟩]⟩ 1 =
      ⟨[(0, 2), (2, 0), (1, 3), (3, 1)],
        [⟨1, 0, 0⟩, ⟨-1, 0, 0⟩, ⟨-1, 0, 0⟩, ⟨-(-1), 0, 0⟩]⟩ := by
    unfold pairStep
    rw [if_neg (by simp [lookupA])]
    dsimp only
    rw [show getV [(⟨1, 0, 0⟩ : Vec3), ⟨-1, 0, 0⟩] 1 = ⟨-1, 0, 0⟩ from rfl]
    rw [if_neg honp2]
    rw [show applyMirror ⟨true, false, false⟩ ⟨-1, 0, 0⟩ = ⟨-(-1), 0, 0⟩ from rfl]
    rw [findMirrorFrom, if_neg (by simp)]
    rfl
  have hpa : pairAll ⟨true, false, false⟩ 0 [⟨1, 0, 0⟩, ⟨-1, 0, 0⟩] =
      ⟨[(0, 2), (2, 0), (1, 3), (3, 1)],
        [⟨1, 0, 0⟩, ⟨-1, 0, 0⟩, ⟨-1, 0, 0⟩, ⟨-(-1), 0, 0⟩]⟩ := by
    show pairRun _ _ _ 2 = _
    rw [show (2 : ℕ) = 1 + 1 from rfl, pairRun_succ,
      show (1 : ℕ) = 0 + 1 from rfl, pairRun_succ, pairRun_zero, hstep0, hstep1]
  unfold ensureGeometrySymmetry
  rw [if_neg (by simp)]
  dsimp only
  rw [hpa]
  dsimp only
  rw [if_neg (by norm_num)]
  rfl

/-- C8 counterexample: with tolerance 0 (the claim quantifies over every
tolerance) the repair is not idempotent: on a one-vertex geometry the first
application synthesizes the mirror vertex (2 vertices), and the second
application — unable to match anything within a zero tolerance — synthesizes
two more (4 vertices) instead of returning its input unchanged. -/
theorem ensure_not_idempotent_zero_tol :
    ∃ g1 g2 : BufferGeometry,
      ensureGeometrySymmetry ⟨some [⟨1, 0, 0⟩], none, some []⟩
        ⟨true, false, false⟩ 0 = Except.ok g1 ∧
      g1.position.map List.length = some 2 ∧
      ensureGeometrySymmetry g1 ⟨true, false, false⟩ 0 = Except.ok g2 ∧
      g2.position.map List.length = some 4 := by
  refine ⟨_, _, ensure_run1_ex 0 (by norm_num), by simp, ensure_run2_zero, by simp⟩

/-- Witness for the amended C8: the first application to a concrete
one-vertex geometry with tolerance 1/2 synthesizes the mirror vertex, and
the second application returns that output unchanged. -/
theorem ensure_idempotent_pos_tol_witness :
    ensureGeometrySymmetry ⟨some [⟨1, 0, 0⟩, ⟨-1, 0, 0⟩],
      some (computeVertexNormals [⟨1, 0, 0⟩, ⟨-1, 0, 0⟩] []), some []⟩
      ⟨true, false, false⟩ (1/2) =
    Except.ok ⟨some [⟨1, 0, 0⟩, ⟨-1, 0, 0⟩],
      some (computeVertexNormals [⟨1, 0, 0⟩, ⟨-1, 0, 0⟩] []), some []⟩ :=
  ensure_idempotent_pos_tol ⟨some [⟨1, 0, 0⟩], none, some []⟩ _
    ⟨true, false, false⟩ (1/2) (by norm_num) (ensure_run1_ex (1/2) (by norm_num))

end Sculpt
